import Mathlib

/-!
# Verification of the message-distribution core of `nest-crdt-tools`

Shallow embedding of the TypeScript sources:

* `src/network/TCPNetwork.ts` — length-prefixed byte framing (writer and
  incremental reader),
* `src/broadcast/ReliableMessageDistributor.ts` — Bracha-style reliable
  broadcast per-fingerprint state machine,
* `src/network/EncryptedTCPNetwork.ts` — per-peer send buffering, handshake
  drain, and RSA chunked encryption/decryption,
* `src/network/Network.ts` (`waitForEveryone`) — readiness barrier,
* `src/CachedMessageHandler.ts` — per-target receiver registry,
* `src/broadcast/GeneralMessageDistributor.ts` — receiver fanout.

Bytes are modelled as `Nat` (JS `Buffer` entries are in `0..255`; none of the
verified properties depend on the upper bound).  JS `Map`s keyed by strings are
modelled as association lists, JS `Set`s of strings as `Finset String`.
-/

namespace NestCrdt

/-! ## ASCII decimal numerals

`TCPNetwork.send` writes `buffer.length.toString()`; the readers convert the
digit prefix back with the JS numeric coercion `- -(str)`.  `natToDigitsAux` is
fuel-indexed so that it is structurally recursive (and hence evaluates inside
`decide`); `natToDigits n` supplies fuel `n`, which is always sufficient since
the recursion is on `n / 10`. -/

/-- Big-endian ASCII decimal digits of `n`, with recursion fuel. -/
def natToDigitsAux : Nat → Nat → List Nat
  | 0, n => [n + 48]
  | fuel + 1, n =>
    if n < 10 then [n + 48] else natToDigitsAux fuel (n / 10) ++ [n % 10 + 48]

/-- Big-endian ASCII decimal digits of `n`; models JS `n.toString()` for a
natural number `n`. -/
def natToDigits (n : Nat) : List Nat :=
  natToDigitsAux n n

/-- Is `d` the code of an ASCII digit? -/
def isDigitByte (d : Nat) : Bool :=
  decide (48 ≤ d) && decide (d ≤ 57)

/-- Value of a big-endian ASCII digit string. -/
def parseDec (l : List Nat) : Nat :=
  l.foldl (fun a d => 10 * a + (d - 48)) 0

/-- JS numeric coercion `- -(str)` as used on length prefixes: on a nonempty
all-digit string it is its decimal value; anything else is modelled as `none`
(the JS result `NaN` makes every subsequent comparison false, which the
callers treat as the failure branch). -/
def parseLen (l : List Nat) : Option Nat :=
  if l ≠ [] ∧ l.all isDigitByte then some (parseDec l) else none

/-- First index holding a zero byte; models JS
`buffer.findIndex(num => num == 0)` (with `none` for `-1`). -/
def findZeroIdx : List Nat → Option Nat
  | [] => none
  | x :: xs => if x = 0 then some 0 else (findZeroIdx xs).map (· + 1)

/-! ## Framed transport (`TCPNetwork`, lines 112-162) -/

/-- `TCPNetwork.send`: ASCII decimal length, one zero byte, then the body. -/
def encodeFrame (body : List Nat) : List Nat :=
  natToDigits body.length ++ 0 :: body

/-- The byte stream produced by writing a sequence of bodies. -/
def encodeFrames (bodies : List (List Nat)) : List Nat :=
  (bodies.map encodeFrame).flatten

/-- One activation of the scanner loop in `TCPNetwork.setReceiver`
(lines 131-161): repeatedly look for the first zero byte, parse the decimal
prefix before it, and if the full frame is present extract the body (dropping
empty bodies) and continue on the remainder; otherwise keep the buffer as the
carry.  `fuel` bounds the number of loop iterations; every iteration consumes
at least two bytes, so `buf.length` fuel always suffices (see `parseLoop`). -/
def parseLoopF : Nat → List Nat → List (List Nat) × List Nat
  | 0, buf => ([], buf)
  | fuel + 1, buf =>
    if buf.isEmpty then ([], buf)
    else
      match findZeroIdx buf with
      | none => ([], buf)
      | some i =>
        if 0 < i then
          match parseLen (buf.take i) with
          | none => ([], buf)
          | some len =>
            if i + 1 + len ≤ buf.length then
              let content := (buf.drop (i + 1)).take len
              let r := parseLoopF fuel (buf.drop (i + 1 + len))
              (if content.isEmpty then r.1 else content :: r.1, r.2)
            else ([], buf)
        else ([], buf)

/-- The scanner applied to one `data` event worth of buffer. -/
def parseLoop (buf : List Nat) : List (List Nat) × List Nat :=
  parseLoopF buf.length buf

/-- Feeding a list of chunks to the reader: each `data` event concatenates the
carry (`lastBuffer`) with the chunk and runs the scanner; delivered bodies
accumulate in order. -/
def runChunks : List Nat → List (List Nat) → List (List Nat) × List Nat
  | carry, [] => ([], carry)
  | carry, c :: cs =>
    let p := parseLoop (carry ++ c)
    let rest := runChunks p.2 cs
    (p.1 ++ rest.1, rest.2)

/-- The nonempty bodies of a sequence, in order (the reader drops
zero-length payloads). -/
def filterNE (bodies : List (List Nat)) : List (List Nat) :=
  bodies.filter (fun b => !b.isEmpty)

/-- `r` is the remnant of an interrupted frame stream for the remaining
bodies `bs`: either nothing remains, or `r` is a strict front part of the
encoding of the next frame. -/
def frameRemnant (r : List Nat) (bs : List (List Nat)) : Prop :=
  (bs = [] ∧ r = []) ∨
    ∃ b bs2 t, bs = b :: bs2 ∧ t ≠ [] ∧ r ++ t = encodeFrame b

/-! ## Reliable broadcast (`ReliableMessageDistributor.ts`)

Per-fingerprint state machine.  Message states are keyed by the fingerprint
`JSON.stringify([uuid, sha256(JSON.stringify(annotatedMessage))])`; all the
handlers below operate on the state of one fixed fingerprint, with
`getMessageState` initialising it on first touch (`initialMessageState`).
Sender sets are `SerializedSet`s of node-id strings — `JSON.stringify` is
injective on strings, so they are plain finite sets of strings.  Outputs
record the network sends (`sendToEveryone` sends one message per member id,
in member order) and local deliveries for this fingerprint. -/

/-- Construction parameters: the member node ids (`Object.keys(nodes)`,
including this node's own id). -/
structure BParams where
  members : List String

/-- `nodeCount` getter (line 77). -/
def nodeCount (p : BParams) : Nat := p.members.length

/-- `faultyNodeCount` getter (line 86): `Math.floor((n - 1) / 3)`.  Nat
subtraction/division agree with the JS floor for every `n ≥ 1`; membership
always contains the node itself, so `n ≥ 1`. -/
def faultyNodeCount (p : BParams) : Nat := (nodeCount p - 1) / 3

/-- `MessageState` (lines 312-319): `none` models a `null`ed sender set. -/
structure MessageState where
  wasEchoSent : Bool
  wasReadySent : Bool
  wasAccepted : Bool
  echoSenders : Option (Finset String)
  readySenders : Option (Finset String)
deriving DecidableEq

/-- The state `getMessageState` installs on first touch (lines 214-223). -/
def initialMessageState : MessageState :=
  ⟨false, false, false, some ∅, some ∅⟩

/-- The three protocol topics. -/
inductive BTopic
  | initialT
  | echoT
  | readyT
deriving DecidableEq

/-- Observable effects of the handlers for one fingerprint: a send of this
fingerprint's message on a topic to a target node, or a local delivery. -/
inductive BOut
  | send (topic : BTopic) (target : String)
  | deliver
deriving DecidableEq

/-- `registerEchoMessage` (lines 184-189): insert the sender if the echo set
is still live. -/
def registerEchoMessage (senderId : String) (st : MessageState) : MessageState :=
  match st.echoSenders with
  | some es => { st with echoSenders := some (insert senderId es) }
  | none => st

/-- `registerReadyMessage` (lines 197-202). -/
def registerReadyMessage (senderId : String) (st : MessageState) : MessageState :=
  match st.readySenders with
  | some rs => { st with readySenders := some (insert senderId rs) }
  | none => st

/-- `isMessageReady` (lines 157-162): the ready-sender set is live with at
least `f + 1` elements, or the echo-sender set is live with more than
`(n + f) / 2` elements (JS division is exact, hence the rational
comparison). -/
def isMessageReady (p : BParams) (st : MessageState) : Bool :=
  (match st.readySenders with
   | some rs => decide (faultyNodeCount p + 1 ≤ rs.card)
   | none => false)
  || (match st.echoSenders with
   | some es => decide (((nodeCount p : ℚ) + (faultyNodeCount p : ℚ)) / 2 < (es.card : ℚ))
   | none => false)

/-- `isMessageAccepted` (lines 171-176): the ready-sender set is live with at
least `2 f + 1` elements. -/
def isMessageAccepted (p : BParams) (st : MessageState) : Bool :=
  match st.readySenders with
  | some rs => decide (2 * faultyNodeCount p + 1 ≤ rs.card)
  | none => false

/-- `sendToEveryone` (lines 253-257): one send per member, in member order. -/
def sendToEveryone (p : BParams) (t : BTopic) : List BOut :=
  p.members.map (BOut.send t)

/-- `echoMessage` (lines 96-106): send the echo to everyone unless already
done; the flag is set before sending. -/
def echoMessage (p : BParams) (st : MessageState) : MessageState × List BOut :=
  if st.wasEchoSent then (st, [])
  else ({ st with wasEchoSent := true }, sendToEveryone p BTopic.echoT)

/-- `readyMessage` (lines 113-127): send the ready to everyone unless already
done, releasing the echo-sender set. -/
def readyMessage (p : BParams) (st : MessageState) : MessageState × List BOut :=
  if st.wasReadySent then (st, [])
  else ({ st with wasReadySent := true, echoSenders := none },
    sendToEveryone p BTopic.readyT)

/-- `acceptMessage` (lines 135-146): deliver locally unless already accepted,
releasing the ready-sender set. -/
def acceptMessage (_p : BParams) (st : MessageState) : MessageState × List BOut :=
  if st.wasAccepted then (st, [])
  else ({ st with wasAccepted := true, readySenders := none }, [BOut.deliver])

/-- A handler invocation relevant to this fingerprint: a shape-valid
`initial`, `echo` or `ready` message from `senderId` (constructor lines
28-61). -/
inductive BEvent
  | initialEv (senderId : String)
  | echoEv (senderId : String)
  | readyEv (senderId : String)

/-- The topic handlers registered by the constructor (lines 27-62), for one
fingerprint:
* `initial`: promote and enter the echo path;
* `echo`: record the sender, then if ready send own echo and ready;
* `ready`: record the sender, then if ready send own echo and ready, then if
  accepted deliver locally. -/
def handle (p : BParams) (st : MessageState) : BEvent → MessageState × List BOut
  | BEvent.initialEv _ => echoMessage p st
  | BEvent.echoEv s =>
    let st1 := registerEchoMessage s st
    if isMessageReady p st1 then
      let e := echoMessage p st1
      let r := readyMessage p e.1
      (r.1, e.2 ++ r.2)
    else (st1, [])
  | BEvent.readyEv s =>
    let st1 := registerReadyMessage s st
    let a :=
      if isMessageReady p st1 then
        let e := echoMessage p st1
        let r := readyMessage p e.1
        (r.1, e.2 ++ r.2)
      else (st1, [])
    if isMessageAccepted p a.1 then
      let c := acceptMessage p a.1
      (c.1, a.2 ++ c.2)
    else a

/-- Run a sequence of handler invocations for one fingerprint from state
`st`, accumulating the outputs in order. -/
def runRBDFrom (p : BParams) (st : MessageState) :
    List BEvent → MessageState × List BOut
  | [] => (st, [])
  | ev :: evs =>
    let s := handle p st ev
    let r := runRBDFrom p s.1 evs
    (r.1, s.2 ++ r.2)

/-- Run a sequence of handler invocations for one fingerprint from the fresh
state. -/
def runRBD (p : BParams) (evs : List BEvent) : MessageState × List BOut :=
  runRBDFrom p initialMessageState evs

/-- Number of local deliveries in an output trace. -/
def countDeliver (outs : List BOut) : Nat :=
  outs.count BOut.deliver

/-- Number of sends of topic `t` to node `m` in an output trace. -/
def countSend (t : BTopic) (m : String) (outs : List BOut) : Nat :=
  outs.count (BOut.send t m)

/-! ## Encrypted transport (`EncryptedTCPNetwork.ts`)

State relevant to claims C5/C6: per-peer sockets, AES session keys and the
per-peer send buffers.  Keys and nonces are opaque (`Nat`); message payloads
are a type parameter `α`. -/

/-- Association-list lookup (JS `Map.get`). -/
def lookupA {β : Type} : List (String × β) → String → Option β
  | [], _ => none
  | (k, v) :: rest, key => if key = k then some v else lookupA rest key

/-- Association-list update (JS `Map.set`). -/
def assocSet {β : Type} : List (String × β) → String → β → List (String × β)
  | [], key, v => [(key, v)]
  | (k, w) :: rest, key, v =>
    if key = k then (key, v) :: rest else (k, w) :: assocSet rest key v

/-- Association-list removal (JS `Map.delete`). -/
def assocDelete {β : Type} : List (String × β) → String → List (String × β)
  | [], _ => []
  | (k, w) :: rest, key =>
    if key = k then rest else (k, w) :: assocDelete rest key

/-- Mutable state of an `EncryptedTCPNetwork` (fields `connections`,
`connectionKeys`, `bufferedData`; lines 30-32). -/
structure ENState (α : Type) where
  connections : List String
  connectionKeys : List (String × Nat)
  bufferedData : List (String × List (String × α))

/-- Socket writes and local receptions observable from the embedded
operations. -/
inductive EOut (α : Type)
  | aesSend (target topic : String) (msg : α)
  | rsaHello (target : String)
  | localDeliver (topic : String) (msg : α)

/-- The buffered queue of a peer (empty when absent). -/
def bufLookup {α : Type} (st : ENState α) (id : String) : List (String × α) :=
  (lookupA st.bufferedData id).getD []

/-- Append one entry to a peer's buffered queue (`sendMessage` lines
214-221: create the array if absent, then `push`). -/
def bufPush {α : Type} (st : ENState α) (id : String) (e : String × α) :
    ENState α :=
  { st with
    bufferedData := assocSet st.bufferedData id (bufLookup st id ++ [e]) }

/-- `sendMessage` (lines 201-229): to self, hand to the local receiver; to a
peer with a socket and a recorded AES connection key, write an AES frame;
otherwise buffer the `(topic, message)` pair and write nothing.  (The
receiver-by-topic lookup is not modelled; a self reception is recorded as
`localDeliver`.) -/
def sendMessage {α : Type} (self : String) (st : ENState α)
    (target topic : String) (msg : α) : ENState α × List (EOut α) :=
  if target ≠ self then
    if target ∈ st.connections ∧ (lookupA st.connectionKeys target).isSome then
      (st, [EOut.aesSend target topic msg])
    else
      (bufPush st target (topic, msg), [])
  else (st, [EOut.localDeliver topic msg])

/-- The drain loop in `registerNode`'s handshake receiver (lines 166-171):
re-send every buffered entry, in insertion order, via `sendMessage`.  The
buffer itself is not cleared. -/
def drainBuffered {α : Type} (self : String) (st : ENState α) (id : String) :
    ENState α × List (EOut α) :=
  (bufLookup st id).foldl
    (fun acc e =>
      let r := sendMessage self acc.1 id e.1 e.2
      (r.1, acc.2 ++ r.2))
    (st, [])

/-- `connect` (lines 133-191, state effects): delete the peer's AES key —
and only the key, never the buffer — replace its socket, and send the RSA
hello `[selfId, nonce]`. -/
def connectStep {α : Type} (st : ENState α) (id : String) :
    ENState α × List (EOut α) :=
  ({ st with
      connectionKeys := assocDelete st.connectionKeys id,
      connections :=
        if id ∈ st.connections then st.connections
        else st.connections ++ [id] },
    [EOut.rsaHello id])

/-- The handshake receiver installed by `registerNode` (lines 155-176): on a
`[returnedNonce, key]` frame, if the nonce matches the one sent, record the
AES key and drain the peer's buffer; on a mismatch, reconnect. -/
def handshakeReceive {α : Type} (self : String) (st : ENState α) (id : String)
    (expectedNonce returnedNonce key : Nat) : ENState α × List (EOut α) :=
  if returnedNonce = expectedNonce then
    drainBuffered self
      { st with connectionKeys := assocSet st.connectionKeys id key } id
  else connectStep st id

/-- The state-mutating operations of the encrypted network. -/
inductive EOp (α : Type)
  | send (target topic : String) (msg : α)
  | hsRecv (id : String) (expected returned key : Nat)
  | connect (id : String)

/-- Apply one operation. -/
def applyOp {α : Type} (self : String) (st : ENState α) :
    EOp α → ENState α × List (EOut α)
  | EOp.send target topic msg => sendMessage self st target topic msg
  | EOp.hsRecv id e r k => handshakeReceive self st id e r k
  | EOp.connect id => connectStep st id

/-- Apply a sequence of operations, accumulating outputs. -/
def applyOps {α : Type} (self : String) (st : ENState α) :
    List (EOp α) → ENState α × List (EOut α)
  | [] => (st, [])
  | op :: ops =>
    let r := applyOp self st op
    let rest := applyOps self r.1 ops
    (rest.1, r.2 ++ rest.2)

/-! ## RSA chunked encryption (`EncryptedTCPNetwork.ts` lines 241-292) -/

/-- The portions `encryptRSA`'s loop slices off the plaintext: successive
`portionSize`-byte pieces.  The source loop does not terminate for
`portionSize ≤ 0`; the model returns `[]` there, and every statement about it
assumes `0 < portionSize` (the call sites use `2048/8 - 45 = 211`). -/
def rsaChunks (k : Nat) (l : List Nat) : List (List Nat) :=
  if h : k = 0 ∨ l = [] then [] else l.take k :: rsaChunks k (l.drop k)
termination_by l.length
decreasing_by
  rw [List.length_drop]
  push_neg at h
  have hl : 0 < l.length := List.length_pos.mpr h.2
  omega

/-- One length-prefixed ciphertext portion (lines 252-258): ASCII decimal
length of the ciphertext, one zero byte, the ciphertext. -/
def encPortion (enc : List Nat → List Nat) (p : List Nat) : List Nat :=
  natToDigits (enc p).length ++ 0 :: enc p

/-- `encryptRSA` (lines 241-262) at the byte level, with the RSA primitive
`publicEncrypt pub` abstracted as `enc`: split the serialized plaintext into
portions, encrypt each, length-prefix each ciphertext with a decimal length
and a zero byte, and concatenate. -/
def encryptRSA (enc : List Nat → List Nat) (portionSize : Nat)
    (bytes : List Nat) : List Nat :=
  ((rsaChunks portionSize bytes).map (encPortion enc)).flatten

/-- `decryptRSA` (lines 264-292) with `privateDecrypt priv` abstracted as
`dec`: scan for the first zero byte, parse the decimal ciphertext length
(`none` models the thrown `"Received incorrectly encoded data!"`), decrypt
each portion, and concatenate the plaintexts. -/
def decryptRSA (dec : List Nat → List Nat) (buffer : List Nat) :
    Option (List Nat) :=
  if h : buffer = [] then some []
  else
    match findZeroIdx buffer with
    | none => none
    | some i =>
      if 0 < i then
        match parseLen (buffer.take i) with
        | some sz =>
          if 0 < sz then
            match decryptRSA dec (buffer.drop (i + 1 + sz)) with
            | some tail => some (dec ((buffer.drop (i + 1)).take sz) ++ tail)
            | none => none
          else none
        | none => none
      else none
termination_by buffer.length
decreasing_by
  rw [List.length_drop]
  have hb : 0 < buffer.length := List.length_pos.mpr h
  omega

/-! ## Readiness barrier (`waitForEveryone`, `Network.ts` lines 87-127) -/

/-- The barrier's state: the still-missing peers (`missingNodes`) and
whether the promise has resolved. -/
structure BarrierState where
  missingNodes : Finset String
  resolved : Bool
deriving DecidableEq

/-- The `setupTopic` receiver (lines 98-115): a greeting from a still-missing
peer removes it from the missing set and sends one reply back to that peer;
when the missing set empties the promise resolves.  A greeting from an
already-seen peer (or from an id not being waited for) does nothing. -/
def waitReceive (st : BarrierState) (greeterId : String) :
    BarrierState × List String :=
  if greeterId ∈ st.missingNodes then
    let m := st.missingNodes.erase greeterId
    (⟨m, st.resolved || decide (m.card = 0)⟩, [greeterId])
  else (st, [])

/-- Process a sequence of received greetings, accumulating the replies. -/
def waitRunFrom (st : BarrierState) : List String → BarrierState × List String
  | [] => (st, [])
  | g :: gs =>
    let r := waitReceive st g
    let rest := waitRunFrom r.1 gs
    (rest.1, r.2 ++ rest.2)

/-- `waitForEveryone` after start-up: all of `otherIds` missing, promise
pending, then the received greetings are processed in order. -/
def waitRun (otherIds : Finset String) (evs : List String) :
    BarrierState × List String :=
  waitRunFrom ⟨otherIds, false⟩ evs

/-- The unsolicited greetings sent at start (lines 119-125): one greeting per
id in `otherIds`.  (JS `Set.forEach` iterates in insertion order; the model
fixes the sorted order — the claims only concern which greetings are sent and
how often.) -/
def waitGreetings (otherIds : Finset String) : List String :=
  otherIds.sort (· ≤ ·)

/-! ## Cached router (`CachedMessageHandler.ts`) -/

/-- The two programmer errors thrown by `CachedMessageHandler`. -/
inductive CErr
  | duplicateReceiver
  | missingReceiver
deriving DecidableEq

/-- `addReceiverFor` (lines 40-46).  The registry is a `SerializedMap` keyed
by `JSON.stringify(target)` (`ser target` here); receivers are opaque ids.  A
registration for a target whose serialized form is already present throws and
leaves the registry unchanged; otherwise the receiver is recorded. -/
def addReceiverFor {T : Type} (ser : T → String) (m : List (String × Nat))
    (target : T) (handleMessage : Nat) :
    List (String × Nat) × Option CErr :=
  if (lookupA m (ser target)).isSome then (m, some CErr.duplicateReceiver)
  else (assocSet m (ser target) handleMessage, none)

/-- `deliverMessage` (lines 57-78): if no receiver is registered for the
target, call the external factory `createFromReference` first (abstracted as
an arbitrary transformation of the registry, since it may re-enter
`addReceiverFor` on this handler); then re-look-up; if a receiver is still
absent, throw the receiver-missing error, otherwise invoke the registered
receiver with the message. -/
def deliverMessage {T : Type} (ser : T → String)
    (createFromReference : List (String × Nat) → List (String × Nat))
    (m : List (String × Nat)) (target : T) :
    List (String × Nat) × Except CErr Nat :=
  let m1 := if (lookupA m (ser target)).isSome then m else createFromReference m
  match lookupA m1 (ser target) with
  | some f => (m1, Except.ok f)
  | none => (m1, Except.error CErr.missingReceiver)

/-! ## Receiver fanout (`GeneralMessageDistributor.ts`) -/

/-- `addReceiver` (lines 24-26): the receivers live in a JS `Set`, which
iterates in insertion order and ignores re-insertion of an element already
present (receivers are compared by function reference, modelled as opaque
ids). -/
def addReceiver (receivers : List Nat) (receiveMessage : Nat) : List Nat :=
  if receiveMessage ∈ receivers then receivers
  else receivers ++ [receiveMessage]

/-- `deliver` (lines 35-39): await each receiver in turn, in insertion
order; the result is the ordered sequence of invocations
`(receiver, message)`. -/
def deliver {μ : Type} (receivers : List Nat) (message : μ) : List (Nat × μ) :=
  receivers.foldl (fun acc r => acc ++ [(r, message)]) []

end NestCrdt

namespace NestCrdt

/-! ## Basic numeral lemmas -/

theorem natToDigitsAux_digits {fuel n : Nat} (h : n ≤ fuel) :
    ∀ d ∈ natToDigitsAux fuel n, 48 ≤ d ∧ d ≤ 57 := by
  induction fuel generalizing n with
  | zero =>
    interval_cases n
    simp [natToDigitsAux]
  | succ fuel ih =>
    intro d hd
    rw [natToDigitsAux] at hd
    by_cases hn : n < 10
    · simp [hn] at hd
      omega
    · simp [hn] at hd
      rcases hd with hd | hd
      · exact ih (by omega) d hd
      · have : n % 10 < 10 := Nat.mod_lt _ (by omega)
        omega

theorem natToDigits_digits (n : Nat) :
    ∀ d ∈ natToDigits n, 48 ≤ d ∧ d ≤ 57 :=
  natToDigitsAux_digits le_rfl

theorem natToDigitsAux_ne_nil {fuel n : Nat} :
    natToDigitsAux fuel n ≠ [] := by
  cases fuel with
  | zero => simp [natToDigitsAux]
  | succ fuel =>
    rw [natToDigitsAux]
    split
    · simp
    · simp

theorem natToDigits_ne_nil (n : Nat) : natToDigits n ≠ [] :=
  natToDigitsAux_ne_nil

theorem parseDec_append_singleton (l : List Nat) (d : Nat) :
    parseDec (l ++ [d]) = 10 * parseDec l + (d - 48) := by
  simp [parseDec]

theorem parseDec_natToDigitsAux {fuel n : Nat} (h : n ≤ fuel) :
    parseDec (natToDigitsAux fuel n) = n := by
  induction fuel generalizing n with
  | zero =>
    interval_cases n
    simp [natToDigitsAux, parseDec]
  | succ fuel ih =>
    rw [natToDigitsAux]
    by_cases hn : n < 10
    · simp [hn, parseDec]
    · simp only [hn, if_false]
      rw [parseDec_append_singleton, ih (by omega)]
      omega

theorem parseDec_natToDigits (n : Nat) : parseDec (natToDigits n) = n :=
  parseDec_natToDigitsAux le_rfl

theorem parseLen_natToDigits (n : Nat) : parseLen (natToDigits n) = some n := by
  have hd := natToDigits_digits n
  have hne := natToDigits_ne_nil n
  have hall : (natToDigits n).all isDigitByte = true := by
    rw [List.all_eq_true]
    intro d hdm
    have := hd d hdm
    simp [isDigitByte]
    omega
  simp [parseLen, hne, hall, parseDec_natToDigits]

theorem natToDigits_ne_zero (n : Nat) : ∀ d ∈ natToDigits n, d ≠ 0 := by
  intro d hd
  have := natToDigits_digits n d hd
  omega

/-! ## Zero scanner lemmas -/

theorem findZeroIdx_of_no_zero {l : List Nat} (h : ∀ d ∈ l, d ≠ 0) :
    findZeroIdx l = none := by
  induction l with
  | nil => rfl
  | cons x xs ih =>
    have hx : x ≠ 0 := h x (by simp)
    simp only [findZeroIdx, hx, if_false]
    rw [ih (fun d hd => h d (by simp [hd]))]
    rfl

theorem findZeroIdx_append_zero {D : List Nat} (r : List Nat)
    (h : ∀ d ∈ D, d ≠ 0) :
    findZeroIdx (D ++ 0 :: r) = some D.length := by
  induction D with
  | nil => simp [findZeroIdx]
  | cons x xs ih =>
    have hx : x ≠ 0 := h x (by simp)
    simp only [List.cons_append, findZeroIdx, hx, if_false, List.append_eq]
    rw [ih (fun d hd => h d (by simp [hd]))]
    simp

/-! ## List plumbing -/

theorem take_len_append (D X : List Nat) : (D ++ X).take D.length = D := by
  induction D with
  | nil => rfl
  | cons x xs ih => simp [ih]

theorem drop_len_append (D X : List Nat) : (D ++ X).drop D.length = X := by
  induction D with
  | nil => rfl
  | cons x xs ih => simp [ih]

theorem drop_len_succ_append (D X : List Nat) (a : Nat) :
    (D ++ a :: X).drop (D.length + 1) = X := by
  induction D with
  | nil => rfl
  | cons x xs ih => simp [ih]

theorem encodeFrames_cons (b : List Nat) (bs : List (List Nat)) :
    encodeFrames (b :: bs) = encodeFrame b ++ encodeFrames bs := by
  simp [encodeFrames]

theorem encodeFrame_ne_nil (b : List Nat) : encodeFrame b ≠ [] := by
  intro h
  have := congrArg List.length h
  simp [encodeFrame] at this

theorem encodeFrame_length (b : List Nat) :
    encodeFrame b = natToDigits b.length ++ 0 :: b := rfl

theorem filterNE_cons (b : List Nat) (bs : List (List Nat)) :
    filterNE (b :: bs) = if b.isEmpty then filterNE bs else b :: filterNE bs := by
  by_cases h : b.isEmpty <;> simp [filterNE, List.filter_cons, h]

/-! ## Scanner: stall on an incomplete frame -/

theorem parseLoopF_nil (fuel : Nat) : parseLoopF fuel [] = ([], []) := by
  cases fuel <;> simp [parseLoopF]

/-- If the buffer is a strict front part of a single encoded frame, the
scanner consumes nothing and keeps the whole buffer as carry. -/
theorem length_encodeFrame (b : List Nat) :
    (encodeFrame b).length = (natToDigits b.length).length + 1 + b.length := by
  simp [encodeFrame]
  omega

theorem parseLoopF_stall (fuel : Nat) {q t : List Nat} (b : List Nat)
    (hq : q ++ t = encodeFrame b) (ht : t ≠ []) :
    parseLoopF fuel q = ([], q) := by
  cases fuel with
  | zero => rfl
  | succ fuel =>
    by_cases hq0 : q = []
    · subst hq0
      exact parseLoopF_nil _
    have hqempty : q.isEmpty = false := by
      simp [hq0]
    have hDnz : ∀ d ∈ natToDigits b.length, d ≠ 0 := natToDigits_ne_zero b.length
    have hqtake : q = (encodeFrame b).take q.length := by
      rw [← hq, take_len_append]
    have hlen : q.length < (encodeFrame b).length := by
      have h1 := congrArg List.length hq
      rw [List.length_append] at h1
      have htpos : 0 < t.length := List.length_pos.mpr ht
      omega
    have hEl := length_encodeFrame b
    by_cases hle : q.length ≤ (natToDigits b.length).length
    · -- still inside the digit prefix: no zero byte yet, so the scanner breaks
      have hq2 : q = (natToDigits b.length).take q.length := by
        conv_lhs => rw [hqtake]
        rw [encodeFrame_length, List.take_append_of_le_length hle]
      have hnz : ∀ d ∈ q, d ≠ 0 := by
        rw [hq2]
        intro d hd
        exact hDnz d (List.take_subset _ _ hd)
      simp only [parseLoopF, hqempty, Bool.false_eq_true, if_false,
        findZeroIdx_of_no_zero hnz]
    · -- past the separator: the declared body is longer than what is buffered
      push_neg at hle
      have hq2 : q = natToDigits b.length ++
          0 :: b.take (q.length - (natToDigits b.length).length - 1) := by
        conv_lhs => rw [hqtake]
        rw [encodeFrame_length, List.take_append_eq_append_take,
          List.take_of_length_le (by omega)]
        congr 1
        rcases hm : q.length - (natToDigits b.length).length with _ | m
        · omega
        · simp
      have hfz : findZeroIdx q = some (natToDigits b.length).length := by
        rw [hq2]
        exact findZeroIdx_append_zero _ hDnz
      have htk : q.take (natToDigits b.length).length = natToDigits b.length := by
        rw [hq2, take_len_append]
      have hDpos : 0 < (natToDigits b.length).length :=
        List.length_pos.mpr (natToDigits_ne_nil b.length)
      have hfit : ¬((natToDigits b.length).length + 1 + b.length ≤ q.length) := by
        omega
      simp only [parseLoopF, hqempty, Bool.false_eq_true, if_false, hfz,
        hDpos, if_true, htk, parseLen_natToDigits]
      rw [if_neg hfit]

/-! ## Scanner: complete characterisation on a stream prefix

`parseLoopF_spec` is the master lemma: on any front part `q` of an encoded
frame stream the scanner emits exactly the nonempty bodies of the frames fully
contained in `q` and keeps the remnant of the interrupted frame as carry. -/

theorem parseLoopF_spec :
    ∀ (bs : List (List Nat)) (fuel : Nat) (q t : List Nat),
      q ++ t = encodeFrames bs → q.length ≤ fuel →
      ∃ bs1 bs2 r, bs = bs1 ++ bs2 ∧ q = encodeFrames bs1 ++ r ∧
        frameRemnant r bs2 ∧ parseLoopF fuel q = (filterNE bs1, r) := by
  intro bs
  induction bs with
  | nil =>
    intro fuel q t hq _
    have hq0 : q = [] := by
      have h0 : q ++ t = [] := by
        rw [hq]
        simp [encodeFrames]
      exact (List.append_eq_nil.mp h0).1
    subst hq0
    exact ⟨[], [], [], by simp [frameRemnant, encodeFrames, filterNE, parseLoopF_nil]⟩
  | cons b bs' ih =>
    intro fuel q t hq hfuel
    rw [encodeFrames_cons] at hq
    by_cases hcmp : q.length < (encodeFrame b).length
    · -- the first frame is not yet complete: the scanner stalls on q
      have hqpre : q = (encodeFrame b ++ encodeFrames bs').take q.length := by
        rw [← hq, take_len_append]
      have hq2 : q = (encodeFrame b).take q.length := by
        conv_lhs => rw [hqpre]
        rw [List.take_append_of_le_length (by omega)]
      have hsplit : q ++ (encodeFrame b).drop q.length = encodeFrame b := by
        nth_rewrite 1 [hq2]
        exact List.take_append_drop _ _
      have hdne : (encodeFrame b).drop q.length ≠ [] := by
        intro h0
        have := congrArg List.length h0
        simp at this
        omega
      refine ⟨[], b :: bs', q, by simp, by simp [encodeFrames], ?_, ?_⟩
      · exact Or.inr ⟨b, bs', _, rfl, hdne, hsplit⟩
      · rw [parseLoopF_stall fuel b hsplit hdne]
        simp [filterNE]
    · -- the first frame is complete inside q: peel it and recurse
      push_neg at hcmp
      have htake : q.take (encodeFrame b).length = encodeFrame b := by
        have h2 := congrArg (List.take (encodeFrame b).length) hq
        rw [List.take_append_of_le_length hcmp, take_len_append] at h2
        exact h2
      have hq2 : q = encodeFrame b ++ q.drop (encodeFrame b).length := by
        conv_lhs => rw [← List.take_append_drop (encodeFrame b).length q]
        rw [htake]
      have hq' : q.drop (encodeFrame b).length ++ t = encodeFrames bs' := by
        have h3 : (encodeFrame b ++ q.drop (encodeFrame b).length) ++ t
            = encodeFrame b ++ encodeFrames bs' := by
          rw [← hq2]
          exact hq
        rw [List.append_assoc] at h3
        exact List.append_cancel_left h3
      have hElen := length_encodeFrame b
      have hDpos : 0 < (natToDigits b.length).length :=
        List.length_pos.mpr (natToDigits_ne_nil b.length)
      have hqlen : 2 ≤ q.length := by omega
      -- fuel is large enough to take one step
      rcases fuel with _ | fuel
      · omega
      have hqempty : q.isEmpty = false := by
        have hne : q ≠ [] := by
          intro h0
          rw [h0] at hqlen
          simp at hqlen
        simp [hne]
      -- compute the head step of the scanner on q
      have hqshape : q = natToDigits b.length ++
          0 :: (b ++ q.drop (encodeFrame b).length) := by
        conv_lhs => rw [hq2]
        simp [encodeFrame_length]
      have hfz : findZeroIdx q = some (natToDigits b.length).length := by
        rw [hqshape]
        exact findZeroIdx_append_zero _ (natToDigits_ne_zero b.length)
      have htk : q.take (natToDigits b.length).length = natToDigits b.length := by
        rw [hqshape, take_len_append]
      have hdrop1 : q.drop ((natToDigits b.length).length + 1)
          = b ++ q.drop (encodeFrame b).length := by
        nth_rewrite 1 [hqshape]
        rw [drop_len_succ_append]
      have hcontent : (q.drop ((natToDigits b.length).length + 1)).take b.length
          = b := by
        rw [hdrop1, take_len_append]
      have hdrop2 : q.drop ((natToDigits b.length).length + 1 + b.length)
          = q.drop (encodeFrame b).length := by
        rw [← hElen]
      have hfit : (natToDigits b.length).length + 1 + b.length ≤ q.length := by
        omega
      obtain ⟨bs1, bs2, r, hbs, hqdecomp, hrem, hrec⟩ :=
        ih fuel (q.drop (encodeFrame b).length) t hq'
          (by
            have := List.length_drop (encodeFrame b).length q
            omega)
      refine ⟨b :: bs1, bs2, r, by simp [hbs], ?_, hrem, ?_⟩
      · rw [encodeFrames_cons, List.append_assoc, ← hqdecomp]
        exact hq2
      · simp only [parseLoopF, hqempty, Bool.false_eq_true, if_false, hfz,
          hDpos, if_true, htk, parseLen_natToDigits]
        rw [if_pos hfit]
        simp only [hcontent, hdrop2, hrec, filterNE_cons]

theorem encodeFrames_append (l1 l2 : List (List Nat)) :
    encodeFrames (l1 ++ l2) = encodeFrames l1 ++ encodeFrames l2 := by
  simp [encodeFrames]

theorem filterNE_append (l1 l2 : List (List Nat)) :
    filterNE (l1 ++ l2) = filterNE l1 ++ filterNE l2 := by
  simp [filterNE, List.filter_append]

/-- Feeding the reader any chunking of a stream whose remaining frames are
`bsRem` (with `carry` the remnant of an interrupted frame) delivers exactly the
nonempty bodies of `bsRem`, in order, and ends with an empty carry. -/
theorem runChunks_spec :
    ∀ (chunks : List (List Nat)) (carry : List Nat) (bsRem : List (List Nat)),
      carry ++ chunks.flatten = encodeFrames bsRem → frameRemnant carry bsRem →
      runChunks carry chunks = (filterNE bsRem, []) := by
  intro chunks
  induction chunks with
  | nil =>
    intro carry bsRem hc hrem
    simp only [List.flatten_nil, List.append_nil] at hc
    rcases hrem with ⟨hbs, hcar⟩ | ⟨b, bs2, t, hbs, htne, hsplit⟩
    · subst hbs
      subst hcar
      simp [runChunks, filterNE]
    · exfalso
      subst hbs
      have h1 := congrArg List.length hsplit
      have h2 := congrArg List.length hc
      rw [encodeFrames_cons] at h2
      simp [List.length_append] at h1 h2
      have h3 : 0 < t.length := List.length_pos.mpr htne
      omega
  | cons c cs ih =>
    intro carry bsRem hc hrem
    have hpref : (carry ++ c) ++ cs.flatten = encodeFrames bsRem := by
      rw [List.append_assoc]
      simpa [List.flatten_cons] using hc
    obtain ⟨bs1, bs2, r, hbs, hdecomp, hrem2, hstep⟩ :=
      parseLoopF_spec bsRem (carry ++ c).length (carry ++ c) cs.flatten hpref
        le_rfl
    have hpl : parseLoop (carry ++ c) = (filterNE bs1, r) := hstep
    have hr : r ++ cs.flatten = encodeFrames bs2 := by
      have h3 : (encodeFrames bs1 ++ r) ++ cs.flatten
          = encodeFrames bs1 ++ encodeFrames bs2 := by
        rw [← hdecomp, hpref, hbs, encodeFrames_append]
      rw [List.append_assoc] at h3
      exact List.append_cancel_left h3
    have hrest := ih r bs2 hr hrem2
    simp only [runChunks, hpl, hrest, hbs, filterNE_append]

/-! ## Reliable broadcast, encrypted transport, barrier, router, fanout -/

end NestCrdt

namespace NestCrdt

/-- C4 — corrected.  The framed transport round-trips the *nonempty* bodies:
for every finite sequence of byte-string bodies framed by `TCPNetwork.send`
and every chunking of the concatenated stream handed to the reader's `data`
handler, the receive callback sees exactly the nonempty bodies, in order
(the reader drops zero-length payloads), and the final carry is empty. -/
theorem tcp_framing_roundtrip (bodies chunks : List (List Nat))
    (h : chunks.flatten = encodeFrames bodies) :
    runChunks [] chunks = (filterNE bodies, []) := by
  apply runChunks_spec chunks [] bodies (by simpa using h)
  rcases bodies with _ | ⟨b, bs⟩
  · exact Or.inl ⟨rfl, rfl⟩
  · exact Or.inr ⟨b, bs, encodeFrame b, rfl, encodeFrame_ne_nil b, by simp⟩

/-- C4 — counterexample to the claim as stated: the empty body is framed as
`"0" ++ 0x00` but the reader drops it, so the delivered sequence is not the
written sequence `[[]]`. -/
theorem tcp_framing_claim_cex :
    ([[48, 0]] : List (List Nat)).flatten = encodeFrames [[]] ∧
    (runChunks [] [[48, 0]]).1 ≠ [[]] := by
  constructor
  · decide
  · decide

/-- C4 — witness: a three-frame stream (bodies `[7]`, `[8]`, `[9, 9]`) cut at
frame-misaligned chunk boundaries is reassembled in order. -/
theorem tcp_framing_roundtrip_witness :
    ([[49, 0, 7], [49], [0, 8, 50, 0, 9, 9]] : List (List Nat)).flatten
      = encodeFrames [[7], [8], [9, 9]] ∧
    runChunks [] [[49, 0, 7], [49], [0, 8, 50, 0, 9, 9]]
      = (filterNE [[7], [8], [9, 9]], []) :=
  ⟨by decide, tcp_framing_roundtrip [[7], [8], [9, 9]] _ (by decide)⟩

end NestCrdt

namespace NestCrdt

/-! ## Reliable broadcast: thresholds and guards (C1) -/

theorem rat_half_lt_iff (a b : Nat) :
    ((b : ℚ) / 2 < (a : ℚ)) ↔ b / 2 < a := by
  rw [div_lt_iff₀ (by norm_num : (0 : ℚ) < 2),
    Nat.div_lt_iff_lt_mul (by norm_num : 0 < 2)]
  constructor
  · intro h
    exact_mod_cast h
  · intro h
    exact_mod_cast h

theorem echoMessage_fst_readySenders (p : BParams) (st : MessageState) :
    (echoMessage p st).1.readySenders = st.readySenders := by
  by_cases h : st.wasEchoSent <;> simp [echoMessage, h]

theorem readyMessage_fst_readySenders (p : BParams) (st : MessageState) :
    (readyMessage p st).1.readySenders = st.readySenders := by
  by_cases h : st.wasReadySent <;> simp [readyMessage, h]

theorem isMessageAccepted_readySenders_congr (p : BParams)
    {st st' : MessageState} (h : st.readySenders = st'.readySenders) :
    isMessageAccepted p st = isMessageAccepted p st' := by
  simp [isMessageAccepted, h]

theorem deliver_not_mem_echoMessage (p : BParams) (st : MessageState) :
    BOut.deliver ∉ (echoMessage p st).2 := by
  by_cases h : st.wasEchoSent <;> simp [echoMessage, h, sendToEveryone]

theorem deliver_not_mem_readyMessage (p : BParams) (st : MessageState) :
    BOut.deliver ∉ (readyMessage p st).2 := by
  by_cases h : st.wasReadySent <;> simp [readyMessage, h, sendToEveryone]

end NestCrdt

namespace NestCrdt

/-- C1 — the readiness check holds exactly when the ready-sender set exists
with at least `f + 1` senders or the echo-sender set exists with more than
`(n + f) / 2` senders; the acceptance check holds exactly when the
ready-sender set exists with at least `2 f + 1` senders; the `echo`/`ready`
handlers emit the node's own sends only when the readiness check (on the
post-registration state) holds, and deliver locally only when the acceptance
check holds. -/
theorem rmd_thresholds (p : BParams) (st : MessageState) (s : String) :
    (isMessageReady p st = true ↔
      (∃ rs, st.readySenders = some rs ∧ faultyNodeCount p + 1 ≤ rs.card) ∨
      (∃ es, st.echoSenders = some es ∧
        (nodeCount p + faultyNodeCount p) / 2 < es.card))
    ∧ (isMessageAccepted p st = true ↔
      ∃ rs, st.readySenders = some rs ∧ 2 * faultyNodeCount p + 1 ≤ rs.card)
    ∧ (∀ t m, BOut.send t m ∈ (handle p st (BEvent.echoEv s)).2 →
      isMessageReady p (registerEchoMessage s st) = true)
    ∧ (∀ t m, BOut.send t m ∈ (handle p st (BEvent.readyEv s)).2 →
      isMessageReady p (registerReadyMessage s st) = true)
    ∧ (BOut.deliver ∈ (handle p st (BEvent.readyEv s)).2 →
      isMessageAccepted p (registerReadyMessage s st) = true) := by
  refine ⟨?_, ?_, ?_, ?_, ?_⟩
  · rw [isMessageReady, Bool.or_eq_true]
    constructor
    · rintro (h | h)
      · rcases hrs : st.readySenders with _ | rs
        · rw [hrs] at h
          simp at h
        · rw [hrs] at h
          simp at h
          exact Or.inl ⟨rs, rfl, h⟩
      · rcases hes : st.echoSenders with _ | es
        · rw [hes] at h
          simp at h
        · rw [hes] at h
          simp at h
          refine Or.inr ⟨es, rfl, ?_⟩
          rw [← rat_half_lt_iff]
          push_cast
          exact h
    · rintro (⟨rs, hrs, h⟩ | ⟨es, hes, h⟩)
      · left
        rw [hrs]
        simpa using h
      · right
        rw [hes]
        simp
        rw [← rat_half_lt_iff] at h
        push_cast at h
        exact h
  · rw [isMessageAccepted]
    constructor
    · intro h
      rcases hrs : st.readySenders with _ | rs
      · rw [hrs] at h
        simp at h
      · rw [hrs] at h
        simp at h
        exact ⟨rs, rfl, h⟩
    · rintro ⟨rs, hrs, h⟩
      rw [hrs]
      simpa using h
  · intro t m hmem
    rw [handle] at hmem
    by_cases hr : isMessageReady p (registerEchoMessage s st) = true
    · exact hr
    · rw [if_neg hr] at hmem
      simp at hmem
  · intro t m hmem
    rw [handle] at hmem
    by_cases hr : isMessageReady p (registerReadyMessage s st) = true
    · exact hr
    · rw [if_neg hr] at hmem
      by_cases ha : isMessageAccepted p (registerReadyMessage s st) = true
      · rw [if_pos ha] at hmem
        rw [acceptMessage] at hmem
        split at hmem <;> simp at hmem
      · rw [if_neg ha] at hmem
        simp at hmem
  · intro hmem
    rw [handle] at hmem
    by_cases hr : isMessageReady p (registerReadyMessage s st) = true
    · rw [if_pos hr] at hmem
      have hsame : isMessageAccepted p
          (readyMessage p (echoMessage p (registerReadyMessage s st)).1).1
          = isMessageAccepted p (registerReadyMessage s st) := by
        apply isMessageAccepted_readySenders_congr
        rw [readyMessage_fst_readySenders, echoMessage_fst_readySenders]
      by_cases ha : isMessageAccepted p (registerReadyMessage s st) = true
      · exact ha
      · rw [hsame, if_neg ha] at hmem
        simp only [List.mem_append] at hmem
        rcases hmem with h | h
        · exact absurd h (deliver_not_mem_echoMessage p _)
        · exact absurd h (deliver_not_mem_readyMessage p _)
    · rw [if_neg hr] at hmem
      by_cases ha : isMessageAccepted p (registerReadyMessage s st) = true
      · exact ha
      · rw [if_neg ha] at hmem
        simp at hmem

/-- C1 — witness: in a one-member network a `ready` from the only member
makes the handler deliver, and the acceptance check indeed holds on the
registered state. -/
theorem rmd_thresholds_witness :
    isMessageAccepted ⟨["a"]⟩
      (registerReadyMessage "a" initialMessageState) = true :=
  (rmd_thresholds ⟨["a"]⟩ initialMessageState "a").2.2.2.2 (by decide)

end NestCrdt

namespace NestCrdt

/-! ## Reliable broadcast: component projections -/

theorem registerEchoMessage_wasEchoSent (s : String) (st : MessageState) :
    (registerEchoMessage s st).wasEchoSent = st.wasEchoSent := by
  cases h : st.echoSenders <;> simp [registerEchoMessage, h]

theorem registerEchoMessage_wasReadySent (s : String) (st : MessageState) :
    (registerEchoMessage s st).wasReadySent = st.wasReadySent := by
  cases h : st.echoSenders <;> simp [registerEchoMessage, h]

theorem registerEchoMessage_wasAccepted (s : String) (st : MessageState) :
    (registerEchoMessage s st).wasAccepted = st.wasAccepted := by
  cases h : st.echoSenders <;> simp [registerEchoMessage, h]

theorem registerEchoMessage_readySenders (s : String) (st : MessageState) :
    (registerEchoMessage s st).readySenders = st.readySenders := by
  cases h : st.echoSenders <;> simp [registerEchoMessage, h]

theorem registerReadyMessage_wasEchoSent (s : String) (st : MessageState) :
    (registerReadyMessage s st).wasEchoSent = st.wasEchoSent := by
  cases h : st.readySenders <;> simp [registerReadyMessage, h]

theorem registerReadyMessage_wasReadySent (s : String) (st : MessageState) :
    (registerReadyMessage s st).wasReadySent = st.wasReadySent := by
  cases h : st.readySenders <;> simp [registerReadyMessage, h]

theorem registerReadyMessage_wasAccepted (s : String) (st : MessageState) :
    (registerReadyMessage s st).wasAccepted = st.wasAccepted := by
  cases h : st.readySenders <;> simp [registerReadyMessage, h]

theorem registerReadyMessage_echoSenders (s : String) (st : MessageState) :
    (registerReadyMessage s st).echoSenders = st.echoSenders := by
  cases h : st.readySenders <;> simp [registerReadyMessage, h]

theorem echoMessage_fst_wasEchoSent (p : BParams) (st : MessageState) :
    (echoMessage p st).1.wasEchoSent = true := by
  by_cases h : st.wasEchoSent <;> simp [echoMessage, h]

theorem echoMessage_fst_wasReadySent (p : BParams) (st : MessageState) :
    (echoMessage p st).1.wasReadySent = st.wasReadySent := by
  by_cases h : st.wasEchoSent <;> simp [echoMessage, h]

theorem echoMessage_fst_wasAccepted (p : BParams) (st : MessageState) :
    (echoMessage p st).1.wasAccepted = st.wasAccepted := by
  by_cases h : st.wasEchoSent <;> simp [echoMessage, h]

theorem echoMessage_fst_echoSenders (p : BParams) (st : MessageState) :
    (echoMessage p st).1.echoSenders = st.echoSenders := by
  by_cases h : st.wasEchoSent <;> simp [echoMessage, h]

theorem echoMessage_snd (p : BParams) (st : MessageState) :
    (echoMessage p st).2
      = if st.wasEchoSent then [] else sendToEveryone p BTopic.echoT := by
  by_cases h : st.wasEchoSent <;> simp [echoMessage, h]

theorem readyMessage_fst_wasEchoSent (p : BParams) (st : MessageState) :
    (readyMessage p st).1.wasEchoSent = st.wasEchoSent := by
  by_cases h : st.wasReadySent <;> simp [readyMessage, h]

theorem readyMessage_fst_wasReadySent (p : BParams) (st : MessageState) :
    (readyMessage p st).1.wasReadySent = true := by
  by_cases h : st.wasReadySent <;> simp [readyMessage, h]

theorem readyMessage_fst_wasAccepted (p : BParams) (st : MessageState) :
    (readyMessage p st).1.wasAccepted = st.wasAccepted := by
  by_cases h : st.wasReadySent <;> simp [readyMessage, h]

theorem readyMessage_fst_echoSenders (p : BParams) (st : MessageState) :
    (readyMessage p st).1.echoSenders
      = if st.wasReadySent then st.echoSenders else none := by
  by_cases h : st.wasReadySent <;> simp [readyMessage, h]

theorem readyMessage_snd (p : BParams) (st : MessageState) :
    (readyMessage p st).2
      = if st.wasReadySent then [] else sendToEveryone p BTopic.readyT := by
  by_cases h : st.wasReadySent <;> simp [readyMessage, h]

theorem acceptMessage_fst_wasEchoSent (p : BParams) (st : MessageState) :
    (acceptMessage p st).1.wasEchoSent = st.wasEchoSent := by
  by_cases h : st.wasAccepted <;> simp [acceptMessage, h]

theorem acceptMessage_fst_wasReadySent (p : BParams) (st : MessageState) :
    (acceptMessage p st).1.wasReadySent = st.wasReadySent := by
  by_cases h : st.wasAccepted <;> simp [acceptMessage, h]

theorem acceptMessage_fst_wasAccepted (p : BParams) (st : MessageState) :
    (acceptMessage p st).1.wasAccepted = true := by
  by_cases h : st.wasAccepted <;> simp [acceptMessage, h]

theorem acceptMessage_fst_echoSenders (p : BParams) (st : MessageState) :
    (acceptMessage p st).1.echoSenders = st.echoSenders := by
  by_cases h : st.wasAccepted <;> simp [acceptMessage, h]

theorem acceptMessage_fst_readySenders (p : BParams) (st : MessageState) :
    (acceptMessage p st).1.readySenders
      = if st.wasAccepted then st.readySenders else none := by
  by_cases h : st.wasAccepted <;> simp [acceptMessage, h]

theorem acceptMessage_snd (p : BParams) (st : MessageState) :
    (acceptMessage p st).2
      = if st.wasAccepted then [] else [BOut.deliver] := by
  by_cases h : st.wasAccepted <;> simp [acceptMessage, h]

/-! ## Reliable broadcast: output counting -/

theorem countDeliver_nil : countDeliver [] = 0 := rfl

theorem countDeliver_append (l1 l2 : List BOut) :
    countDeliver (l1 ++ l2) = countDeliver l1 + countDeliver l2 :=
  List.count_append _ _ _

theorem countDeliver_sendToEveryone (p : BParams) (t : BTopic) :
    countDeliver (sendToEveryone p t) = 0 := by
  simp [countDeliver, sendToEveryone, List.count_eq_zero]

theorem countDeliver_single : countDeliver [BOut.deliver] = 1 := rfl

theorem countSend_nil (t : BTopic) (m : String) : countSend t m [] = 0 := rfl

theorem countSend_append (t : BTopic) (m : String) (l1 l2 : List BOut) :
    countSend t m (l1 ++ l2) = countSend t m l1 + countSend t m l2 :=
  List.count_append _ _ _

theorem countSend_sendToEveryone_same (p : BParams) (t : BTopic) (m : String) :
    countSend t m (sendToEveryone p t) = p.members.count m := by
  rw [countSend, sendToEveryone]
  induction p.members with
  | nil => rfl
  | cons x xs ih => simp [List.count_cons, ih]

theorem countSend_sendToEveryone_ne (p : BParams) {t t' : BTopic} (m : String)
    (h : t ≠ t') : countSend t' m (sendToEveryone p t) = 0 := by
  rw [countSend, sendToEveryone]
  refine List.count_eq_zero.mpr ?_
  intro hmem
  rw [List.mem_map] at hmem
  rcases hmem with ⟨x, _, hcon⟩
  injection hcon with h1 h2
  exact h h1

theorem countSend_deliver_single (t : BTopic) (m : String) :
    countSend t m [BOut.deliver] = 0 := rfl

end NestCrdt

namespace NestCrdt

attribute [simp] registerEchoMessage_wasEchoSent registerEchoMessage_wasReadySent
  registerEchoMessage_wasAccepted registerEchoMessage_readySenders
  registerReadyMessage_wasEchoSent registerReadyMessage_wasReadySent
  registerReadyMessage_wasAccepted registerReadyMessage_echoSenders
  echoMessage_fst_wasEchoSent echoMessage_fst_wasReadySent
  echoMessage_fst_wasAccepted echoMessage_fst_echoSenders
  echoMessage_fst_readySenders echoMessage_snd
  readyMessage_fst_wasEchoSent readyMessage_fst_wasReadySent
  readyMessage_fst_wasAccepted readyMessage_fst_echoSenders
  readyMessage_fst_readySenders readyMessage_snd
  acceptMessage_fst_wasEchoSent acceptMessage_fst_wasReadySent
  acceptMessage_fst_wasAccepted acceptMessage_fst_echoSenders
  acceptMessage_fst_readySenders acceptMessage_snd
  countDeliver_nil countDeliver_append countDeliver_sendToEveryone
  countDeliver_single countSend_nil countSend_append
  countSend_sendToEveryone_same countSend_deliver_single

theorem countDeliver_ite (c : Prop) [Decidable c] (p : BParams) (t : BTopic) :
    countDeliver (if c then [] else sendToEveryone p t) = 0 := by
  split <;> simp

attribute [simp] countDeliver_ite

/-- Per-invocation facts about acceptance and delivery: acceptance is
monotone, a delivery happens in a handler invocation exactly on the
false-to-true transition of `wasAccepted`. -/
theorem handle_deliver_step (p : BParams) (st : MessageState) (e : BEvent) :
    (st.wasAccepted = true → (handle p st e).1.wasAccepted = true
      ∧ countDeliver (handle p st e).2 = 0)
    ∧ (st.wasAccepted = false →
      countDeliver (handle p st e).2
        = (if (handle p st e).1.wasAccepted then 1 else 0)) := by
  cases e with
  | initialEv s =>
    simp only [handle]
    constructor
    · intro h
      simp [h]
    · intro h
      simp [h]
  | echoEv s =>
    simp only [handle]
    split
    · constructor
      · intro h
        simp [h]
      · intro h
        simp [h]
    · constructor
      · intro h
        simp [h]
      · intro h
        simp [h]
  | readyEv s =>
    simp only [handle]
    split
    · split
      · constructor
        · intro h
          simp [h]
        · intro h
          simp [h]
      · constructor
        · intro h
          simp [h]
        · intro h
          simp [h]
    · split
      · constructor
        · intro h
          simp [h]
        · intro h
          simp [h]
      · constructor
        · intro h
          simp [h]
        · intro h
          simp [h]

end NestCrdt

namespace NestCrdt

theorem registerEchoMessage_echoSenders (s : String) (st : MessageState) :
    (registerEchoMessage s st).echoSenders = st.echoSenders.map (insert s) := by
  cases h : st.echoSenders <;> simp [registerEchoMessage, h]

theorem registerReadyMessage_readySenders (s : String) (st : MessageState) :
    (registerReadyMessage s st).readySenders = st.readySenders.map (insert s) := by
  cases h : st.readySenders <;> simp [registerReadyMessage, h]

theorem countSend_ite_same (c : Prop) [Decidable c] (p : BParams) (t : BTopic)
    (m : String) :
    countSend t m (if c then [] else sendToEveryone p t)
      = if c then 0 else p.members.count m := by
  split <;> simp

theorem countSend_ite_ne (c : Prop) [Decidable c] (p : BParams)
    {t t' : BTopic} (m : String) (h : t ≠ t') :
    countSend t' m (if c then [] else sendToEveryone p t) = 0 := by
  split <;> simp [countSend_sendToEveryone_ne p m h]

theorem countSend_ite_deliver (c : Prop) [Decidable c] (t : BTopic)
    (m : String) :
    countSend t m (if c then [] else [BOut.deliver]) = 0 := by
  split <;> simp

attribute [simp] registerEchoMessage_echoSenders registerReadyMessage_readySenders
  countSend_ite_same countSend_ite_ne countSend_ite_deliver

/-- Per-invocation facts about memory release: once `wasReadySent` holds the
echo-sender set is `null`, and once `wasAccepted` holds the ready-sender set
is `null`. -/
theorem handle_released_step (p : BParams) (st : MessageState) (e : BEvent)
    (h1 : st.wasReadySent = true → st.echoSenders = none)
    (h2 : st.wasAccepted = true → st.readySenders = none) :
    ((handle p st e).1.wasReadySent = true → (handle p st e).1.echoSenders = none)
    ∧ ((handle p st e).1.wasAccepted = true →
      (handle p st e).1.readySenders = none) := by
  cases e <;> simp only [handle] <;> (repeat split) <;> constructor <;>
    intro h <;> by_cases hA : st.wasAccepted = true <;>
    by_cases hR : st.wasReadySent = true <;> simp_all <;>
    (try (split <;> simp_all))

end NestCrdt

namespace NestCrdt

/-- Per-invocation monotonicity of the sender sets: while a set stays live
across a handler invocation, recorded senders are preserved. -/
theorem handle_senders_mono (p : BParams) (st : MessageState) (e : BEvent) :
    (∀ es es', st.echoSenders = some es →
      (handle p st e).1.echoSenders = some es' → es ⊆ es')
    ∧ (∀ rs rs', st.readySenders = some rs →
      (handle p st e).1.readySenders = some rs' → rs ⊆ rs') := by
  cases e <;> simp only [handle] <;> (repeat split) <;> constructor <;>
    intro X X' hX hX' <;>
    by_cases hA : st.wasAccepted = true <;>
    by_cases hR : st.wasReadySent = true <;>
    simp_all [Finset.subset_insert] <;>
    (try (split at hX' <;> simp_all [Finset.subset_insert])) <;>
    (try (exact hX' ▸ Finset.subset_insert _ _))

/-- Per-invocation facts about the send flags: they are monotone, and the
sends to everyone happen exactly on the false-to-true transition. -/
theorem handle_sent_step (p : BParams) (st : MessageState) (e : BEvent)
    (m : String) :
    (st.wasEchoSent = true → (handle p st e).1.wasEchoSent = true
      ∧ countSend BTopic.echoT m (handle p st e).2 = 0)
    ∧ (st.wasEchoSent = false →
      countSend BTopic.echoT m (handle p st e).2
        = (if (handle p st e).1.wasEchoSent then p.members.count m else 0))
    ∧ (st.wasReadySent = true → (handle p st e).1.wasReadySent = true
      ∧ countSend BTopic.readyT m (handle p st e).2 = 0)
    ∧ (st.wasReadySent = false →
      countSend BTopic.readyT m (handle p st e).2
        = (if (handle p st e).1.wasReadySent then p.members.count m
          else 0)) := by
  cases e <;> simp only [handle] <;> (repeat split) <;>
    refine ⟨fun h => ?_, fun h => ?_, fun h => ?_, fun h => ?_⟩ <;>
    by_cases hE : st.wasEchoSent = true <;>
    by_cases hR : st.wasReadySent = true <;>
    simp_all [countSend_sendToEveryone_ne] <;>
    (try (split <;> simp_all [countSend_sendToEveryone_ne]))

end NestCrdt

namespace NestCrdt

theorem runRBDFrom_accepted_mono (p : BParams) :
    ∀ (evs : List BEvent) (st : MessageState), st.wasAccepted = true →
      (runRBDFrom p st evs).1.wasAccepted = true := by
  intro evs
  induction evs with
  | nil =>
    intro st h
    exact h
  | cons ev evs ih =>
    intro st h
    simp only [runRBDFrom]
    exact ih _ ((handle_deliver_step p st ev).1 h).1

theorem runRBDFrom_deliver_count (p : BParams) :
    ∀ (evs : List BEvent) (st : MessageState),
      countDeliver (runRBDFrom p st evs).2
        = if (runRBDFrom p st evs).1.wasAccepted = true ∧ st.wasAccepted = false
          then 1 else 0 := by
  intro evs
  induction evs with
  | nil =>
    intro st
    simp only [runRBDFrom, countDeliver_nil]
    by_cases h : st.wasAccepted = true <;> simp [h]
  | cons ev evs ih =>
    intro st
    simp only [runRBDFrom, countDeliver_append]
    rw [ih]
    by_cases h : st.wasAccepted = true
    · have h1 := (handle_deliver_step p st ev).1 h
      rw [h1.2]
      simp [h, h1.1]
    · have hst : st.wasAccepted = false := by
        simp only [Bool.not_eq_true] at h
        exact h
      rw [(handle_deliver_step p st ev).2 hst]
      by_cases hacc : (handle p st ev).1.wasAccepted = true
      · have h3 := runRBDFrom_accepted_mono p evs _ hacc
        simp [hacc, hst, h3]
      · have hacc' : (handle p st ev).1.wasAccepted = false := by
          simp only [Bool.not_eq_true] at hacc
          exact hacc
        simp [hacc', hst]

theorem runRBDFrom_released (p : BParams) :
    ∀ (evs : List BEvent) (st : MessageState),
      (st.wasReadySent = true → st.echoSenders = none) →
      (st.wasAccepted = true → st.readySenders = none) →
      ((runRBDFrom p st evs).1.wasReadySent = true →
        (runRBDFrom p st evs).1.echoSenders = none)
      ∧ ((runRBDFrom p st evs).1.wasAccepted = true →
        (runRBDFrom p st evs).1.readySenders = none) := by
  intro evs
  induction evs with
  | nil =>
    intro st h1 h2
    exact ⟨h1, h2⟩
  | cons ev evs ih =>
    intro st h1 h2
    simp only [runRBDFrom]
    have hstep := handle_released_step p st ev h1 h2
    exact ih _ hstep.1 hstep.2

theorem runRBDFrom_echoSent_mono (p : BParams) :
    ∀ (evs : List BEvent) (st : MessageState), st.wasEchoSent = true →
      (runRBDFrom p st evs).1.wasEchoSent = true := by
  intro evs
  induction evs with
  | nil =>
    intro st h
    exact h
  | cons ev evs ih =>
    intro st h
    simp only [runRBDFrom]
    exact ih _ ((handle_sent_step p st ev "").1 h).1

theorem runRBDFrom_readySent_mono (p : BParams) :
    ∀ (evs : List BEvent) (st : MessageState), st.wasReadySent = true →
      (runRBDFrom p st evs).1.wasReadySent = true := by
  intro evs
  induction evs with
  | nil =>
    intro st h
    exact h
  | cons ev evs ih =>
    intro st h
    simp only [runRBDFrom]
    exact ih _ ((handle_sent_step p st ev "").2.2.1 h).1

theorem runRBDFrom_echo_count (p : BParams) (m : String) :
    ∀ (evs : List BEvent) (st : MessageState),
      countSend BTopic.echoT m (runRBDFrom p st evs).2
        = if (runRBDFrom p st evs).1.wasEchoSent = true ∧ st.wasEchoSent = false
          then p.members.count m else 0 := by
  intro evs
  induction evs with
  | nil =>
    intro st
    simp only [runRBDFrom, countSend_nil]
    by_cases h : st.wasEchoSent = true <;> simp [h]
  | cons ev evs ih =>
    intro st
    simp only [runRBDFrom, countSend_append]
    rw [ih]
    by_cases h : st.wasEchoSent = true
    · have h1 := (handle_sent_step p st ev m).1 h
      rw [h1.2]
      simp [h, h1.1]
    · have hst : st.wasEchoSent = false := by
        simp only [Bool.not_eq_true] at h
        exact h
      rw [(handle_sent_step p st ev m).2.1 hst]
      by_cases hacc : (handle p st ev).1.wasEchoSent = true
      · have h3 := runRBDFrom_echoSent_mono p evs _ hacc
        simp [hacc, hst, h3]
      · have hacc' : (handle p st ev).1.wasEchoSent = false := by
          simp only [Bool.not_eq_true] at hacc
          exact hacc
        simp [hacc', hst]

theorem runRBDFrom_ready_count (p : BParams) (m : String) :
    ∀ (evs : List BEvent) (st : MessageState),
      countSend BTopic.readyT m (runRBDFrom p st evs).2
        = if (runRBDFrom p st evs).1.wasReadySent = true
            ∧ st.wasReadySent = false
          then p.members.count m else 0 := by
  intro evs
  induction evs with
  | nil =>
    intro st
    simp only [runRBDFrom, countSend_nil]
    by_cases h : st.wasReadySent = true <;> simp [h]
  | cons ev evs ih =>
    intro st
    simp only [runRBDFrom, countSend_append]
    rw [ih]
    by_cases h : st.wasReadySent = true
    · have h1 := (handle_sent_step p st ev m).2.2.1 h
      rw [h1.2]
      simp [h, h1.1]
    · have hst : st.wasReadySent = false := by
        simp only [Bool.not_eq_true] at h
        exact h
      rw [(handle_sent_step p st ev m).2.2.2 hst]
      by_cases hacc : (handle p st ev).1.wasReadySent = true
      · have h3 := runRBDFrom_readySent_mono p evs _ hacc
        simp [hacc, hst, h3]
      · have hacc' : (handle p st ev).1.wasReadySent = false := by
          simp only [Bool.not_eq_true] at hacc
          exact hacc
        simp [hacc', hst]

end NestCrdt

namespace NestCrdt

/-- C2 — per-fingerprint state invariants over every sequence of handler
invocations from the fresh state: once `wasReadySent` holds the echo-sender
set is `null`; once `wasAccepted` holds the ready-sender set is `null` and
`deliver` has run exactly once (and zero times before acceptance);
`wasAccepted` never reverts across a further invocation; and while a sender
set is live, recorded sender ids are never removed by a further
invocation. -/
theorem rmd_state_invariants (p : BParams) (evs : List BEvent) :
    ((runRBD p evs).1.wasReadySent = true →
      (runRBD p evs).1.echoSenders = none)
    ∧ ((runRBD p evs).1.wasAccepted = true →
      (runRBD p evs).1.readySenders = none
        ∧ countDeliver (runRBD p evs).2 = 1)
    ∧ ((runRBD p evs).1.wasAccepted = false →
      countDeliver (runRBD p evs).2 = 0)
    ∧ (∀ e, (runRBD p evs).1.wasAccepted = true →
      (handle p (runRBD p evs).1 e).1.wasAccepted = true)
    ∧ (∀ e es es', (runRBD p evs).1.echoSenders = some es →
      (handle p (runRBD p evs).1 e).1.echoSenders = some es' → es ⊆ es')
    ∧ (∀ e rs rs', (runRBD p evs).1.readySenders = some rs →
      (handle p (runRBD p evs).1 e).1.readySenders = some rs' → rs ⊆ rs') := by
  have hrel := runRBDFrom_released p evs initialMessageState
    (by intro h; simp [initialMessageState] at h)
    (by intro h; simp [initialMessageState] at h)
  have hcount := runRBDFrom_deliver_count p evs initialMessageState
  refine ⟨hrel.1, ?_, ?_, ?_, ?_, ?_⟩
  · intro h
    refine ⟨hrel.2 h, ?_⟩
    rw [runRBD] at h ⊢
    rw [hcount, if_pos ⟨h, by simp [initialMessageState]⟩]
  · intro h
    rw [runRBD] at h ⊢
    rw [hcount, if_neg (by simp [h])]
  · intro e h
    exact ((handle_deliver_step p _ e).1 h).1
  · intro e es es' h1 h2
    exact (handle_senders_mono p _ e).1 es es' h1 h2
  · intro e rs rs' h1 h2
    exact (handle_senders_mono p _ e).2 rs rs' h1 h2

/-- C2 — witness: in a one-member network, a single `ready` from the only
member accepts the message; the final state has released the ready-sender
set and exactly one delivery happened. -/
theorem rmd_state_invariants_witness :
    (runRBD ⟨["a"]⟩ [BEvent.readyEv "a"]).1.readySenders = none
      ∧ countDeliver (runRBD ⟨["a"]⟩ [BEvent.readyEv "a"]).2 = 1 :=
  (rmd_state_invariants ⟨["a"]⟩ [BEvent.readyEv "a"]).2.1 (by decide)

/-- C3 — for every fingerprint and every invocation sequence: when
`wasEchoSent` holds, exactly one echo was emitted to every member of the
network (including the node itself, which is a member), and none before;
the same for `wasReadySent` and ready messages.  Re-entering the sending
path never duplicates an emission. -/
theorem rmd_send_exactly_once (p : BParams) (evs : List BEvent) (m : String)
    (hm : m ∈ p.members) (hnd : p.members.Nodup) :
    ((runRBD p evs).1.wasEchoSent = true →
      countSend BTopic.echoT m (runRBD p evs).2 = 1)
    ∧ ((runRBD p evs).1.wasEchoSent = false →
      countSend BTopic.echoT m (runRBD p evs).2 = 0)
    ∧ ((runRBD p evs).1.wasReadySent = true →
      countSend BTopic.readyT m (runRBD p evs).2 = 1)
    ∧ ((runRBD p evs).1.wasReadySent = false →
      countSend BTopic.readyT m (runRBD p evs).2 = 0) := by
  have hc1 := runRBDFrom_echo_count p m evs initialMessageState
  have hc2 := runRBDFrom_ready_count p m evs initialMessageState
  have hone : p.members.count m = 1 := List.count_eq_one_of_mem hnd hm
  refine ⟨?_, ?_, ?_, ?_⟩
  · intro h
    rw [runRBD] at h ⊢
    rw [hc1, if_pos ⟨h, by simp [initialMessageState]⟩, hone]
  · intro h
    rw [runRBD] at h ⊢
    rw [hc1, if_neg (by simp [h])]
  · intro h
    rw [runRBD] at h ⊢
    rw [hc2, if_pos ⟨h, by simp [initialMessageState]⟩, hone]
  · intro h
    rw [runRBD] at h ⊢
    rw [hc2, if_neg (by simp [h])]

/-- C3 — witness: one-member network, one `ready` event; the node sends its
echo and ready exactly once to the unique member (itself). -/
theorem rmd_send_exactly_once_witness :
    countSend BTopic.echoT "a" (runRBD ⟨["a"]⟩ [BEvent.readyEv "a"]).2 = 1 :=
  (rmd_send_exactly_once ⟨["a"]⟩ [BEvent.readyEv "a"] "a"
    (by decide) (by decide)).1 (by decide)

end NestCrdt

namespace NestCrdt

/-! ## Encrypted transport: association-list and buffer lemmas -/

theorem lookupA_assocSet_same {β : Type} (l : List (String × β)) (k : String)
    (v : β) : lookupA (assocSet l k v) k = some v := by
  induction l with
  | nil => simp [assocSet, lookupA]
  | cons kv rest ih =>
    rcases kv with ⟨k', w⟩
    by_cases h : k = k' <;> simp [assocSet, lookupA, h, ih]

theorem lookupA_assocSet_ne {β : Type} (l : List (String × β))
    {k k' : String} (v : β) (h : k ≠ k') :
    lookupA (assocSet l k' v) k = lookupA l k := by
  induction l with
  | nil => simp [assocSet, lookupA, h]
  | cons kv rest ih =>
    rcases kv with ⟨k2, w⟩
    by_cases h2 : k' = k2
    · subst h2
      simp [assocSet, lookupA, h]
    · by_cases h3 : k = k2 <;> simp [assocSet, lookupA, h2, h3, ih]

theorem bufLookup_bufPush_same {α : Type} (st : ENState α) (id : String)
    (e : String × α) :
    bufLookup (bufPush st id e) id = bufLookup st id ++ [e] := by
  simp [bufLookup, bufPush, lookupA_assocSet_same]

theorem bufLookup_bufPush_ne {α : Type} (st : ENState α) {id q : String}
    (e : String × α) (h : q ≠ id) :
    bufLookup (bufPush st id e) q = bufLookup st q := by
  simp [bufLookup, bufPush, lookupA_assocSet_ne _ _ h]

theorem sendMessage_buffer_extends {α : Type} (self target topic : String)
    (msg : α) (st : ENState α) (q : String) :
    ∃ ext, bufLookup (sendMessage self st target topic msg).1 q
      = bufLookup st q ++ ext := by
  rw [sendMessage]
  split
  · split
    · exact ⟨[], by simp⟩
    · by_cases h : q = target
      · subst h
        exact ⟨[(topic, msg)], by simp [bufLookup_bufPush_same]⟩
      · exact ⟨[], by simp [bufLookup_bufPush_ne _ _ h]⟩
  · exact ⟨[], by simp⟩

/-- The drain fold under the conditions holding during a successful
handshake: the peer has a socket and a recorded key, so every buffered entry
is sent as an AES frame, in order, and the state is unchanged. -/
theorem drain_go {α : Type} (self id : String) (st : ENState α)
    (hns : id ≠ self) (hc : id ∈ st.connections)
    (hk : (lookupA st.connectionKeys id).isSome = true) :
    ∀ (entries : List (String × α)) (outs : List (EOut α)),
      entries.foldl
        (fun acc e =>
          let r := sendMessage self acc.1 id e.1 e.2
          (r.1, acc.2 ++ r.2))
        (st, outs)
      = (st, outs ++ entries.map (fun e => EOut.aesSend id e.1 e.2)) := by
  intro entries
  induction entries with
  | nil =>
    intro outs
    simp
  | cons e rest ih =>
    intro outs
    have hsend : sendMessage self st id e.1 e.2
        = (st, [EOut.aesSend id e.1 e.2]) := by
      rw [sendMessage, if_pos hns, if_pos ⟨hc, hk⟩]
    simp only [List.foldl_cons, hsend]
    rw [ih]
    simp

theorem drainBuffered_spec {α : Type} (self id : String) (st : ENState α)
    (hns : id ≠ self) (hc : id ∈ st.connections)
    (hk : (lookupA st.connectionKeys id).isSome = true) :
    drainBuffered self st id
      = (st, (bufLookup st id).map (fun e => EOut.aesSend id e.1 e.2)) := by
  rw [drainBuffered, drain_go self id st hns hc hk]
  simp

theorem drain_fold_buffer_extends {α : Type} (self id : String) :
    ∀ (entries : List (String × α)) (st : ENState α) (outs : List (EOut α))
      (q : String),
      ∃ ext, bufLookup
          (entries.foldl
            (fun acc e =>
              let r := sendMessage self acc.1 id e.1 e.2
              (r.1, acc.2 ++ r.2))
            (st, outs)).1 q
        = bufLookup st q ++ ext := by
  intro entries
  induction entries with
  | nil =>
    intro st outs q
    exact ⟨[], by simp⟩
  | cons e rest ih =>
    intro st outs q
    simp only [List.foldl_cons]
    obtain ⟨e1, he1⟩ := sendMessage_buffer_extends self id e.1 e.2 st q
    obtain ⟨e2, he2⟩ := ih (sendMessage self st id e.1 e.2).1 _ q
    exact ⟨e1 ++ e2, by rw [he2, he1, List.append_assoc]⟩

end NestCrdt

namespace NestCrdt

theorem handshakeReceive_buffer_extends {α : Type} (self id : String)
    (st : ENState α) (en rn k : Nat) (q : String) :
    ∃ ext, bufLookup (handshakeReceive self st id en rn k).1 q
      = bufLookup st q ++ ext := by
  rw [handshakeReceive]
  split
  · rw [drainBuffered]
    have h := drain_fold_buffer_extends self id
      (bufLookup { st with connectionKeys := assocSet st.connectionKeys id k } id)
      { st with connectionKeys := assocSet st.connectionKeys id k } [] q
    obtain ⟨ext, hext⟩ := h
    exact ⟨ext, by rw [hext]; simp [bufLookup]⟩
  · exact ⟨[], by simp [connectStep, bufLookup]⟩

theorem applyOp_buffer_extends {α : Type} (self : String) (op : EOp α)
    (st : ENState α) (q : String) :
    ∃ ext, bufLookup (applyOp self st op).1 q = bufLookup st q ++ ext := by
  cases op with
  | send target topic msg => exact sendMessage_buffer_extends self target topic msg st q
  | hsRecv id e r k => exact handshakeReceive_buffer_extends self id st e r k q
  | connect id => exact ⟨[], by simp [applyOp, connectStep, bufLookup]⟩

theorem applyOps_buffer_extends {α : Type} (self : String) :
    ∀ (ops : List (EOp α)) (st : ENState α) (q : String),
      ∃ ext, bufLookup (applyOps self st ops).1 q = bufLookup st q ++ ext := by
  intro ops
  induction ops with
  | nil =>
    intro st q
    exact ⟨[], by simp [applyOps]⟩
  | cons op ops ih =>
    intro st q
    simp only [applyOps]
    obtain ⟨e1, he1⟩ := applyOp_buffer_extends self op st q
    obtain ⟨e2, he2⟩ := ih (applyOp self st op).1 q
    exact ⟨e1 ++ e2, by rw [he2, he1, List.append_assoc]⟩

theorem handshakeReceive_match_spec {α : Type} (self id : String)
    (st : ENState α) (nonce key : Nat) (hns : id ≠ self)
    (hc : id ∈ st.connections) :
    handshakeReceive self st id nonce nonce key
      = ({ st with connectionKeys := assocSet st.connectionKeys id key },
        (bufLookup st id).map (fun e => EOut.aesSend id e.1 e.2)) := by
  rw [handshakeReceive, if_pos rfl]
  have hc' : id ∈ ({ st with
      connectionKeys := assocSet st.connectionKeys id key } : ENState α).connections :=
    hc
  rw [drainBuffered_spec self id _ hns hc' (by simp [lookupA_assocSet_same])]
  congr 1

/-- C5 — while a remote peer's AES connection key is not recorded,
`sendMessage` appends the `(topic, message)` pair to that peer's buffer queue
and writes nothing to the socket; once the handshake completes with a
matching nonce, the key is recorded and the buffered entries for that peer
are sent (as AES frames) in insertion order. -/
theorem enc_buffering_and_drain {α : Type} (self target topic : String)
    (msg : α) (st : ENState α) (id : String) (nonce key : Nat) :
    (target ≠ self → lookupA st.connectionKeys target = none →
      sendMessage self st target topic msg
          = (bufPush st target (topic, msg), [])
        ∧ bufLookup (bufPush st target (topic, msg)) target
          = bufLookup st target ++ [(topic, msg)])
    ∧ (id ≠ self → id ∈ st.connections →
      lookupA (handshakeReceive self st id nonce nonce key).1.connectionKeys id
          = some key
        ∧ (handshakeReceive self st id nonce nonce key).2
          = (bufLookup st id).map (fun e => EOut.aesSend id e.1 e.2)) := by
  constructor
  · intro hns hkey
    constructor
    · rw [sendMessage, if_pos hns, if_neg (by simp [hkey])]
    · exact bufLookup_bufPush_same st target (topic, msg)
  · intro hns hc
    rw [handshakeReceive_match_spec self id st nonce key hns hc]
    exact ⟨lookupA_assocSet_same _ _ _, rfl⟩

/-- C5 — witness: with no key recorded for peer `"b"`, a send buffers; after
the matching-nonce handshake the single buffered message is written. -/
theorem enc_buffering_and_drain_witness :
    sendMessage "a" (⟨["b"], [], []⟩ : ENState Nat) "b" "t" 5
        = (bufPush ⟨["b"], [], []⟩ "b" ("t", 5), [])
      ∧ bufLookup (bufPush (⟨["b"], [], []⟩ : ENState Nat) "b" ("t", 5)) "b"
        = bufLookup (⟨["b"], [], []⟩ : ENState Nat) "b" ++ [("t", 5)] :=
  (enc_buffering_and_drain "a" "b" "t" 5 ⟨["b"], [], []⟩ "b" 1 9).1
    (by decide) (by decide)

/-- C6 — no operation of the encrypted network removes entries from a peer's
buffered-message queue: every operation only extends each queue, a
matching-nonce handshake drains the queue without clearing it, and therefore
the drain of a later handshake re-sends everything the drain of an earlier
handshake sent (its output extends the earlier output, whatever operations
happened in between). -/
theorem enc_buffer_never_cleared {α : Type} (self : String) :
    (∀ (op : EOp α) (st : ENState α) (q : String),
      ∃ ext, bufLookup (applyOp self st op).1 q = bufLookup st q ++ ext)
    ∧ (∀ (st : ENState α) (id : String) (nonce key : Nat), id ≠ self →
      id ∈ st.connections →
      bufLookup (handshakeReceive self st id nonce nonce key).1 id
        = bufLookup st id)
    ∧ (∀ (st : ENState α) (id : String) (n1 k1 n2 k2 : Nat)
        (ops : List (EOp α)), id ≠ self → id ∈ st.connections →
      id ∈ (applyOps self (handshakeReceive self st id n1 n1 k1).1 ops).1.connections →
      ∃ ext, (handshakeReceive self
          (applyOps self (handshakeReceive self st id n1 n1 k1).1 ops).1
          id n2 n2 k2).2
        = (handshakeReceive self st id n1 n1 k1).2 ++ ext) := by
  refine ⟨applyOp_buffer_extends self, ?_, ?_⟩
  · intro st id nonce key hns hc
    rw [handshakeReceive_match_spec self id st nonce key hns hc]
    simp [bufLookup]
  · intro st id n1 k1 n2 k2 ops hns hc hcmid
    have hout1 : (handshakeReceive self st id n1 n1 k1).2
        = (bufLookup st id).map (fun e => EOut.aesSend id e.1 e.2) := by
      rw [handshakeReceive_match_spec self id st n1 k1 hns hc]
    have hbuf1 : bufLookup (handshakeReceive self st id n1 n1 k1).1 id
        = bufLookup st id := by
      rw [handshakeReceive_match_spec self id st n1 k1 hns hc]
      simp [bufLookup]
    obtain ⟨e1, he1⟩ := applyOps_buffer_extends self ops
      (handshakeReceive self st id n1 n1 k1).1 id
    have hout2 : (handshakeReceive self
        (applyOps self (handshakeReceive self st id n1 n1 k1).1 ops).1
        id n2 n2 k2).2
        = (bufLookup
            (applyOps self (handshakeReceive self st id n1 n1 k1).1 ops).1
            id).map (fun e => EOut.aesSend id e.1 e.2) := by
      rw [handshakeReceive_match_spec self id _ n2 k2 hns hcmid]
    refine ⟨e1.map (fun e => EOut.aesSend id e.1 e.2), ?_⟩
    rw [hout2, he1, hbuf1, List.map_append, hout1]

/-- C6 — witness: peer `"b"` has one buffered message; the drain of a second
handshake (with no operations in between) re-sends it, extending the first
drain's output. -/
theorem enc_buffer_never_cleared_witness :
    bufLookup (handshakeReceive "a"
        (⟨["b"], [], [("b", [("t", 5)])]⟩ : ENState Nat) "b" 1 1 9).1 "b"
      = bufLookup (⟨["b"], [], [("b", [("t", 5)])]⟩ : ENState Nat) "b" :=
  (enc_buffer_never_cleared "a").2.1 ⟨["b"], [], [("b", [("t", 5)])]⟩ "b" 1 9
    (by decide) (by decide)

end NestCrdt

namespace NestCrdt

/-! ## RSA chunked encryption lemmas (C7) -/

theorem rsaChunks_flatten (k : Nat) (hk : 0 < k) :
    ∀ (n : Nat) (l : List Nat), l.length ≤ n →
      (rsaChunks k l).flatten = l := by
  intro n
  induction n with
  | zero =>
    intro l hl
    have hnil : l = [] := List.eq_nil_of_length_eq_zero (by omega)
    subst hnil
    rw [rsaChunks]
    simp
  | succ n ih =>
    intro l hl
    rw [rsaChunks]
    split
    · rename_i h
      rcases h with h | h
      · omega
      · simp [h]
    · rename_i h
      push_neg at h
      simp only [List.flatten_cons]
      rw [ih (l.drop k)
        (by
          rw [List.length_drop]
          have hp := List.length_pos.mpr h.2
          omega)]
      exact List.take_append_drop k l

theorem encPortion_eq_encodeFrame (enc : List Nat → List Nat) (p : List Nat) :
    encPortion enc p = encodeFrame (enc p) := rfl

theorem decryptRSA_encPortions (dec enc : List Nat → List Nat)
    (hlen : ∀ p, 0 < (enc p).length) :
    ∀ ps : List (List Nat),
      decryptRSA dec ((ps.map (encPortion enc)).flatten)
        = some ((ps.map (fun p => dec (enc p))).flatten) := by
  intro ps
  induction ps with
  | nil =>
    simp [decryptRSA]
  | cons p rest ih =>
    have hshape : ((p :: rest).map (encPortion enc)).flatten
        = natToDigits (enc p).length
          ++ 0 :: (enc p ++ (rest.map (encPortion enc)).flatten) := by
      simp [encPortion, List.append_assoc]
    have hDpos : 0 < (natToDigits (enc p).length).length :=
      List.length_pos.mpr (natToDigits_ne_nil _)
    have hne : ((p :: rest).map (encPortion enc)).flatten ≠ [] := by
      rw [hshape]
      simp
    rw [decryptRSA, dif_neg hne]
    have hfz : findZeroIdx ((p :: rest).map (encPortion enc)).flatten
        = some (natToDigits (enc p).length).length := by
      rw [hshape]
      exact findZeroIdx_append_zero _ (natToDigits_ne_zero _)
    have htk : (((p :: rest).map (encPortion enc)).flatten).take
        (natToDigits (enc p).length).length = natToDigits (enc p).length := by
      rw [hshape, take_len_append]
    have hdrop1 : (((p :: rest).map (encPortion enc)).flatten).drop
        ((natToDigits (enc p).length).length + 1)
        = enc p ++ (rest.map (encPortion enc)).flatten := by
      rw [hshape, drop_len_succ_append]
    have hcontent : ((((p :: rest).map (encPortion enc)).flatten).drop
        ((natToDigits (enc p).length).length + 1)).take (enc p).length
        = enc p := by
      rw [hdrop1, take_len_append]
    have hdrop2 : (((p :: rest).map (encPortion enc)).flatten).drop
        ((natToDigits (enc p).length).length + 1 + (enc p).length)
        = (rest.map (encPortion enc)).flatten := by
      rw [← List.drop_drop, hdrop1, drop_len_append]
    rw [hfz]
    simp only [hDpos, if_true, htk, parseLen_natToDigits, hlen p, hcontent,
      hdrop2, ih]
    simp

/-- C7 — with the RSA primitives abstracted as mutually inverse functions on
byte strings (`dec (enc p) = p`, nonempty ciphertexts) and a positive portion
size (the call sites use `2048/8 - 45 = 211`): decrypting an RSA chunked
message produced by `encryptRSA` yields the plaintext byte-for-byte, and
composed with a serializer round-trip it reconstructs the original value. -/
theorem rsa_chunk_roundtrip {β : Type} (ser : β → List Nat)
    (deser : List Nat → Option β) (enc dec : List Nat → List Nat)
    (portionSize : Nat) (x : β)
    (hdec : ∀ p, dec (enc p) = p) (hlen : ∀ p, 0 < (enc p).length)
    (hk : 0 < portionSize) (hser : deser (ser x) = some x) :
    (∀ bytes, decryptRSA dec (encryptRSA enc portionSize bytes) = some bytes)
    ∧ (decryptRSA dec (encryptRSA enc portionSize (ser x))).bind deser
      = some x := by
  have hbytes : ∀ bytes,
      decryptRSA dec (encryptRSA enc portionSize bytes) = some bytes := by
    intro bytes
    rw [encryptRSA, decryptRSA_encPortions dec enc hlen]
    congr 1
    rw [show (fun p => dec (enc p)) = fun p : List Nat => p from funext hdec,
      List.map_id']
    exact rsaChunks_flatten portionSize hk bytes.length bytes le_rfl
  refine ⟨hbytes, ?_⟩
  rw [hbytes (ser x)]
  simpa using hser

/-- C7 — witness: concrete invertible "encryption" (prepend a byte) applied
to the three-byte serialization of `37`, chunked at portion size 3. -/
theorem rsa_chunk_roundtrip_witness :
    (decryptRSA (fun c => c.tail)
        (encryptRSA (fun p => 1 :: p) 3 (natToDigits 37))).bind parseLen
      = some 37 :=
  (rsa_chunk_roundtrip natToDigits parseLen (fun p => 1 :: p)
    (fun c => c.tail) 3 37 (fun _ => rfl) (fun p => by simp) (by decide)
    (parseLen_natToDigits 37)).2

end NestCrdt

namespace NestCrdt

/-! ## Readiness barrier lemmas (C8) -/

theorem waitRunFrom_missing :
    ∀ (evs : List String) (st : BarrierState),
      (waitRunFrom st evs).1.missingNodes
        = st.missingNodes.filter (fun id => id ∉ evs) := by
  intro evs
  induction evs with
  | nil =>
    intro st
    simp only [waitRunFrom]
    ext x
    simp
  | cons g gs ih =>
    intro st
    simp only [waitRunFrom]
    rw [waitReceive]
    by_cases hg : g ∈ st.missingNodes
    · rw [if_pos hg, ih]
      ext x
      simp only [Finset.mem_filter, Finset.mem_erase, List.mem_cons]
      constructor
      · rintro ⟨⟨hxg, hx⟩, hgs⟩
        exact ⟨hx, by simp [hxg, hgs]⟩
      · rintro ⟨hx, hmem⟩
        push_neg at hmem
        exact ⟨⟨hmem.1, hx⟩, hmem.2⟩
    · rw [if_neg hg, ih]
      ext x
      simp only [Finset.mem_filter, List.mem_cons]
      constructor
      · rintro ⟨hx, hgs⟩
        refine ⟨hx, ?_⟩
        push_neg
        exact ⟨fun hxg => hg (hxg ▸ hx), hgs⟩
      · rintro ⟨hx, hmem⟩
        push_neg at hmem
        exact ⟨hx, hmem.2⟩

theorem waitRunFrom_resolved :
    ∀ (evs : List String) (st : BarrierState),
      ((waitRunFrom st evs).1.resolved = true ↔
        st.resolved = true ∨
          (st.missingNodes.Nonempty ∧ ∀ id ∈ st.missingNodes, id ∈ evs)) := by
  intro evs
  induction evs with
  | nil =>
    intro st
    simp only [waitRunFrom]
    constructor
    · intro h
      exact Or.inl h
    · rintro (h | ⟨⟨x, hx⟩, hall⟩)
      · exact h
      · exact absurd (hall x hx) (List.not_mem_nil x)
  | cons g gs ih =>
    intro st
    simp only [waitRunFrom]
    rw [waitReceive]
    by_cases hg : g ∈ st.missingNodes
    · rw [if_pos hg, ih]
      by_cases he : st.missingNodes.erase g = ∅
      · have hres : (st.resolved
            || decide ((st.missingNodes.erase g).card = 0)) = true := by
          simp [he]
        simp only [hres]
        constructor
        · intro _
          refine Or.inr ⟨⟨g, hg⟩, ?_⟩
          intro x hx
          by_cases hxg : x = g
          · simp [hxg]
          · exfalso
            have hxe : x ∈ st.missingNodes.erase g :=
              Finset.mem_erase.mpr ⟨hxg, hx⟩
            rw [he] at hxe
            exact absurd hxe (Finset.not_mem_empty x)
        · intro _
          exact Or.inl trivial
      · have hcard : ¬((st.missingNodes.erase g).card = 0) := by
          intro h0
          exact he (Finset.card_eq_zero.mp h0)
        have hres : (st.resolved
            || decide ((st.missingNodes.erase g).card = 0)) = st.resolved := by
          simp [hcard]
        simp only [hres]
        have herase : (st.missingNodes.erase g).Nonempty :=
          Finset.nonempty_iff_ne_empty.mpr he
        constructor
        · rintro (h | ⟨_, hall⟩)
          · exact Or.inl h
          · refine Or.inr ⟨⟨g, hg⟩, ?_⟩
            intro x hx
            by_cases hxg : x = g
            · simp [hxg]
            · have hxgs := hall x (Finset.mem_erase.mpr ⟨hxg, hx⟩)
              simp [hxgs]
        · rintro (h | ⟨_, hall⟩)
          · exact Or.inl h
          · refine Or.inr ⟨herase, ?_⟩
            intro x hx
            have hx2 := Finset.mem_erase.mp hx
            have hxc := hall x hx2.2
            rcases List.mem_cons.mp hxc with h1 | h1
            · exact absurd h1 hx2.1
            · exact h1
    · rw [if_neg hg, ih]
      constructor
      · rintro (h | ⟨hne, hall⟩)
        · exact Or.inl h
        · refine Or.inr ⟨hne, ?_⟩
          intro x hx
          have := hall x hx
          simp [this]
      · rintro (h | ⟨hne, hall⟩)
        · exact Or.inl h
        · refine Or.inr ⟨hne, ?_⟩
          intro x hx
          have hxc := hall x hx
          rcases List.mem_cons.mp hxc with h1 | h1
          · exact absurd (h1 ▸ hx) hg
          · exact h1

theorem waitRunFrom_replies :
    ∀ (evs : List String) (st : BarrierState) (g : String),
      (waitRunFrom st evs).2.count g
        = if g ∈ st.missingNodes ∧ g ∈ evs then 1 else 0 := by
  intro evs
  induction evs with
  | nil =>
    intro st g
    simp [waitRunFrom]
  | cons e gs ih =>
    intro st g
    simp only [waitRunFrom, List.count_append]
    rw [waitReceive]
    by_cases he : e ∈ st.missingNodes
    · rw [if_pos he]
      rw [ih]
      by_cases hge : g = e
      · subst hge
        have hmem : g ∉ (st.missingNodes.erase g) := Finset.not_mem_erase g _
        simp [he, hmem]
      · have hmem : (g ∈ st.missingNodes.erase e) ↔ g ∈ st.missingNodes := by
          rw [Finset.mem_erase]
          exact ⟨fun h => h.2, fun h => ⟨hge, h⟩⟩
        simp only [List.count_cons, List.count_nil]
        by_cases hgm : g ∈ st.missingNodes <;>
          by_cases hgs : g ∈ gs <;>
          simp [hmem, hgm, hgs, hge, Ne.symm hge]
    · rw [if_neg he]
      rw [ih]
      by_cases hge : g = e
      · subst hge
        simp [he]
      · by_cases hgm : g ∈ st.missingNodes <;>
          by_cases hgs : g ∈ gs <;>
          simp [hgm, hgs, hge]

theorem waitGreetings_count (otherIds : Finset String) (g : String) :
    (waitGreetings otherIds).count g = if g ∈ otherIds then 1 else 0 := by
  rw [waitGreetings]
  by_cases h : g ∈ otherIds
  · rw [if_pos h]
    exact List.count_eq_one_of_mem (Finset.sort_nodup _ _)
      ((Finset.mem_sort _).mpr h)
  · rw [if_neg h]
    exact List.count_eq_zero_of_not_mem (fun hc => h ((Finset.mem_sort _).mp hc))

end NestCrdt

namespace NestCrdt

/-- C8 — counterexample to the claim as stated: with an empty `otherIds` the
condition "every id in otherIds has been received from at least once" holds
vacuously (the executable form: no id of `otherIds` is missing a receive),
yet the barrier never resolves — `resolve()` is only ever called inside the
receive handler, which never fires. -/
theorem barrier_empty_cex :
    ((∅ : Finset String).filter (fun id => id ∉ ([] : List String)) = ∅)
    ∧ (waitRun ∅ []).1.resolved = false := by
  constructor
  · rfl
  · rfl

/-- C8 — amended: the barrier resolves exactly when `otherIds` is nonempty
and every id in it has been received from at least once (for empty
`otherIds` it never resolves, since resolution only happens inside the
receive handler); on each receive from a peer still missing, that peer is
removed from the missing set and exactly one reply is sent to it, a receive
from an already-seen peer (or an id not waited for) triggers no reply; and at
start one greeting is sent to every id in `otherIds`. -/
theorem barrier_spec (otherIds : Finset String) (evs : List String)
    (g : String) :
    ((waitRun otherIds evs).1.resolved = true ↔
      otherIds.Nonempty ∧ ∀ id ∈ otherIds, id ∈ evs)
    ∧ (waitRun otherIds evs).1.missingNodes
      = otherIds.filter (fun id => id ∉ evs)
    ∧ ((waitRun otherIds evs).2.count g
      = if g ∈ otherIds ∧ g ∈ evs then 1 else 0)
    ∧ ((waitGreetings otherIds).count g = if g ∈ otherIds then 1 else 0) := by
  refine ⟨?_, ?_, ?_, waitGreetings_count otherIds g⟩
  · rw [waitRun, waitRunFrom_resolved]
    simp
  · rw [waitRun, waitRunFrom_missing]
  · rw [waitRun, waitRunFrom_replies]

/-- C8 — witness: waiting for the single peer `"b"`, a greeting from `"b"`
resolves the barrier. -/
theorem barrier_spec_witness :
    (waitRun {"b"} ["b"]).1.resolved = true :=
  (barrier_spec {"b"} ["b"] "b").1.mpr ⟨⟨"b", by decide⟩, by decide⟩

end NestCrdt

namespace NestCrdt

/-! ## Cached router lemmas (C9) -/

theorem deliverMessage_fst {T : Type} (ser : T → String)
    (createFromReference : List (String × Nat) → List (String × Nat))
    (m : List (String × Nat)) (target : T) :
    (deliverMessage ser createFromReference m target).1
      = if (lookupA m (ser target)).isSome then m
        else createFromReference m := by
  simp only [deliverMessage]
  split <;> rfl

/-- C9 — `addReceiverFor` throws the duplicate-receiver error exactly when a
receiver is already registered for a target with the same serialized form,
and on that error the registry is unchanged; on delivery, when no receiver is
registered the factory `createFromReference` runs first, and if afterwards a
receiver for the target is still absent the receiver-missing error is
thrown, otherwise the registered receiver is invoked with the message. -/
theorem cmh_register_deliver_spec {T : Type} (ser : T → String)
    (createFromReference : List (String × Nat) → List (String × Nat))
    (m : List (String × Nat)) (target : T) (f g : Nat) :
    ((addReceiverFor ser m target f).2.isSome
      ↔ (lookupA m (ser target)).isSome)
    ∧ ((lookupA m (ser target)).isSome →
      addReceiverFor ser m target f = (m, some CErr.duplicateReceiver))
    ∧ (lookupA m (ser target) = none →
      addReceiverFor ser m target f = (assocSet m (ser target) f, none))
    ∧ ((lookupA m (ser target)).isSome →
      (deliverMessage ser createFromReference m target).1 = m)
    ∧ (lookupA m (ser target) = none →
      (deliverMessage ser createFromReference m target).1
        = createFromReference m)
    ∧ (lookupA (deliverMessage ser createFromReference m target).1
          (ser target) = none →
      (deliverMessage ser createFromReference m target).2
        = Except.error CErr.missingReceiver)
    ∧ (lookupA (deliverMessage ser createFromReference m target).1
          (ser target) = some g →
      (deliverMessage ser createFromReference m target).2 = Except.ok g) := by
  refine ⟨?_, ?_, ?_, ?_, ?_, ?_, ?_⟩
  · rw [addReceiverFor]
    by_cases h : (lookupA m (ser target)).isSome <;> simp [h]
  · intro h
    rw [addReceiverFor, if_pos h]
  · intro h
    rw [addReceiverFor, if_neg (by simp [h])]
  · intro h
    rw [deliverMessage_fst, if_pos h]
  · intro h
    rw [deliverMessage_fst, if_neg (by simp [h])]
  · intro h
    rw [deliverMessage_fst] at h
    simp only [deliverMessage, h]
  · intro h
    rw [deliverMessage_fst] at h
    simp only [deliverMessage, h]

/-- C9 — witness: a second registration for the serialized-equal target
`"x"` errors and leaves the registry unchanged. -/
theorem cmh_register_deliver_spec_witness :
    addReceiverFor (fun s => s) [("x", 1)] "x" 2
      = ([("x", 1)], some CErr.duplicateReceiver) :=
  (cmh_register_deliver_spec (fun s => s) (fun m => m) [("x", 1)] "x" 2 0).2.1
    (by decide)

/-! ## Receiver fanout (C10) -/

theorem deliver_foldl_acc {μ : Type} (m : μ) :
    ∀ (l : List Nat) (acc : List (Nat × μ)),
      l.foldl (fun acc r => acc ++ [(r, m)]) acc
        = acc ++ l.map (fun x => (x, m)) := by
  intro l
  induction l with
  | nil =>
    intro acc
    simp
  | cons x xs ih =>
    intro acc
    simp [ih]

/-- C10 — counterexample to the claim as stated: the receivers live in a JS
`Set`, so adding a receiver that is already held (the same function
reference) does not append it again. -/
theorem gmd_add_append_cex : addReceiver [7] 7 ≠ [7] ++ [7] := by decide

/-- C10 — amended: `addReceiver` appends the given receiver to the held
collection when it is not already held, and keeps the collection unchanged
when it is (JS `Set` semantics on function references); `deliver(message)`
invokes every held receiver exactly once with that message, sequentially in
insertion order (the fold awaits each receiver before the next); after an
`addReceiver` of a new receiver, delivery invokes it last. -/
theorem gmd_fanout_spec {μ : Type} (receivers : List Nat) (r : Nat) (m : μ) :
    (r ∉ receivers → addReceiver receivers r = receivers ++ [r])
    ∧ (r ∈ receivers → addReceiver receivers r = receivers)
    ∧ deliver receivers m = receivers.map (fun x => (x, m))
    ∧ deliver (addReceiver receivers r) m
      = deliver receivers m ++ (if r ∈ receivers then [] else [(r, m)]) := by
  refine ⟨?_, ?_, ?_, ?_⟩
  · intro h
    rw [addReceiver, if_neg h]
  · intro h
    rw [addReceiver, if_pos h]
  · rw [deliver, deliver_foldl_acc]
    simp
  · rw [addReceiver]
    by_cases h : r ∈ receivers
    · simp [h]
    · rw [if_neg h, if_neg h, deliver, deliver, deliver_foldl_acc,
        deliver_foldl_acc]
      simp

/-- C10 — witness: adding a fresh receiver to the empty collection appends
it. -/
theorem gmd_fanout_spec_witness : addReceiver [] 7 = [] ++ [7] :=
  (gmd_fanout_spec ([] : List Nat) 7 (0 : Nat)).1 (by decide)

end NestCrdt
